import Mathlib

/-!
# Verification of the RAMCloud backup replica engine

This development embeds the backup-side replica engine of RAMCloud
(src/BackupReplica.h and the behaviour pinned down by
src/BackupServiceTest.cc).  The repository ships the header
`BackupReplica.h` (which contains full code for `isOpen`,
`BackupReplicaMetadata`, its packed layout and integrity check) and the
test suite; the bodies of `BackupService.cc` / `BackupReplica.cc` are not
part of the repository snapshot, so the operational behaviour of the RPC
entry points is modelled from the specification (spec.md §4.4, §4.6, §4.7,
§4.8, §7) and cross-checked against every test in `BackupServiceTest.cc`.
-/

namespace RAMCloud

/-- Server ids carry an id and a generation number (`ServerId(99, 0)` vs
`ServerId(99, 1)` are distinct masters in the tests). -/
abbrev ServerId := Nat × Nat

/-- `BackupReplica::BYTES_WRITTEN_CLOSED = ~0u` (BackupReplica.h line 164):
the `u32` sentinel stored in `rightmostWrittenOffset` once a replica has
been successfully closed. -/
def BYTES_WRITTEN_CLOSED : Nat := 2 ^ 32 - 1

/-- `BackupReplica::State` (BackupReplica.h lines 50-60). -/
inductive RState
  | uninit
  | opened
  | closed
  | recovering
  | freed
deriving DecidableEq, Repr

/-- The in-memory object tracking a replica of one segment
(BackupReplica.h): `primary` flag, `createdByCurrentProcess` flag,
`rightmostWrittenOffset` (with the `BYTES_WRITTEN_CLOSED` sentinel), the
state tag, and the bytes stored in the replica's storage frame. -/
structure Replica where
  primary : Bool
  createdByCurrentProcess : Bool
  rightmostWrittenOffset : Nat
  state : RState
  bytes : List Nat
deriving DecidableEq, Repr

/-- `BackupReplica::isOpen` (BackupReplica.h lines 96-101): openness is
derived from `rightmostWrittenOffset != BYTES_WRITTEN_CLOSED`, not from the
state tag. -/
def Replica.isOpen (r : Replica) : Bool :=
  r.rightmostWrittenOffset != BYTES_WRITTEN_CLOSED

/-- `WireFormat::BackupWrite` flags: NONE, OPEN, OPENPRIMARY, CLOSE and
OPEN|CLOSE are the combinations used by the protocol. -/
structure WriteFlags where
  openF : Bool
  primaryF : Bool
  closeF : Bool
deriving DecidableEq, Repr

/-- One `WriteSegment` RPC: identity of the replica, the source buffer and
the (srcOffset, destOffset, length) window, and the flags. -/
structure WriteOp where
  masterId : ServerId
  segmentId : Nat
  src : List Nat
  srcOffset : Nat
  destOffset : Nat
  length : Nat
  flags : WriteFlags
deriving DecidableEq, Repr

/-- Registry key of the RPC: the `(masterId, segmentId)` identity. -/
def WriteOp.key (op : WriteOp) : ServerId × Nat := (op.masterId, op.segmentId)

/-- The `length` bytes that the RPC carries, read from `src` starting at
`srcOffset` (zero padded when the source buffer is short). -/
def WriteOp.data (op : WriteOp) : List Nat :=
  (op.src.drop op.srcOffset).take op.length ++
    List.replicate (op.length - ((op.src.drop op.srcOffset).take op.length).length) 0

/-- Overwrite the bytes of `b` starting at `destOff` with `d`. -/
def copyIn (b : List Nat) (destOff : Nat) (d : List Nat) : List Nat :=
  b.take destOff ++ d ++ b.drop (destOff + d.length)

/-- Registry of the backup service: `(masterId, segmentId) → Replica`
(spec.md §4.6), as an association list. -/
abbrev Registry := List ((ServerId × Nat) × Replica)

/-- First-match lookup in the registry (`findBackupReplica`). -/
def lookupR : Registry → (ServerId × Nat) → Option Replica
  | [], _ => none
  | e :: rest, k => if e.1 = k then some e.2 else lookupR rest k

/-- Replace the value stored at key `k` (no-op when the key is absent). -/
def setR : Registry → (ServerId × Nat) → Replica → Registry
  | [], _, _ => []
  | e :: rest, k, v => if e.1 = k then (k, v) :: rest else e :: setR rest k v

/-- State of the backup service visible to `WriteSegment`: the number of
free storage frames and the replica registry. -/
structure BState where
  freeFrames : Nat
  registry : Registry
deriving DecidableEq, Repr

/-- Error kinds surfaced over RPC (spec.md §6): `BadSegmentId`,
`SegmentOverflow` and `BackupOpenRejected` (the RPC-level surfacing of
`StorageExhausted` on open, see test `writeSegment_openSegmentOutOfStorage`). -/
inductive WErr
  | badSegmentId
  | segmentOverflow
  | backupOpenRejected
deriving DecidableEq, Repr

/-- The effect on an open replica of writing the RPC's bytes at
`destOffset` and advancing `rightmostWrittenOffset` to the max offset
seen. -/
def appliedWrite (r : Replica) (op : WriteOp) : Replica :=
  { r with
    bytes := copyIn r.bytes op.destOffset op.data
    rightmostWrittenOffset :=
      max r.rightmostWrittenOffset (op.destOffset + op.length) }

/-- Modelled from the spec: the write/close portion of a `WriteSegment` RPC
applied to an existing (or freshly opened) replica owned by this process.
`BackupService::writeSegment`'s body is not in the repository snapshot;
this follows spec.md §4.4: a write requires the replica to be open
(`isOpen`, i.e. `rightmostWrittenOffset ≠ BYTES_WRITTEN_CLOSED`) and
`destOffset + length ≤ segmentSize` (else `SegmentOverflow`); a data write
to a non-open replica fails `BadSegmentId`, except that a redundant CLOSE
on an already-closed replica with the same identity is accepted silently
(tests `writeSegment_segmentClosed` and
`writeSegment_segmentClosedRedundantClosingWrite`). -/
def writeToReplica (segmentSize : Nat) (r : Replica) (op : WriteOp) :
    Except WErr Replica :=
  if r.isOpen then
    if segmentSize < op.destOffset + op.length then
      .error .segmentOverflow
    else
      if op.flags.closeF then
        .ok { appliedWrite r op with
              rightmostWrittenOffset := BYTES_WRITTEN_CLOSED,
              state := .closed }
      else
        .ok (appliedWrite r op)
  else
    if op.flags.closeF then
      .ok r
    else
      .error .badSegmentId

/-- The replica freshly created by the open portion of a `WriteSegment`
with an OPEN flag (spec.md §4.4 UNINIT→OPEN: reserve a frame, set
`primary`, `rightmostWrittenOffset ← 0`). -/
def freshReplica (segmentSize : Nat) (op : WriteOp) : Replica :=
  { primary := op.flags.primaryF
    createdByCurrentProcess := true
    rightmostWrittenOffset := 0
    state := .opened
    bytes := List.replicate segmentSize 0 }

/-- Modelled from the spec: the `WriteSegment` RPC (spec.md §4.4, §4.6,
§7).  The body of `BackupService::writeSegment` is not in the repository
snapshot; behaviour is modelled from the spec and pinned by the tests:
  * a write to a replica inherited from storage
    (`createdByCurrentProcess = false`) is rejected — `BackupOpenRejected`
    for OPEN variants, `BadSegmentId` otherwise
    (test `writeSegment_disallowOnReplicasFromStorage`);
  * OPEN on a missing replica reserves a frame, failing
    `BackupOpenRejected` when storage is exhausted
    (test `writeSegment_openSegmentOutOfStorage`);
  * a non-OPEN write to a missing replica fails `BadSegmentId`
    (test `writeSegment_segmentNotOpen`);
  * per spec.md §7, client errors are returned without mutating state. -/
def writeSegment (segmentSize : Nat) (st : BState) (op : WriteOp) :
    Except WErr BState :=
  match lookupR st.registry op.key with
  | some r =>
    if r.createdByCurrentProcess then
      match writeToReplica segmentSize r op with
      | .ok r2 => .ok { st with registry := setR st.registry op.key r2 }
      | .error e => .error e
    else
      if op.flags.openF then .error .backupOpenRejected
      else .error .badSegmentId
  | none =>
    if op.flags.openF then
      if st.freeFrames = 0 then .error .backupOpenRejected
      else
        match writeToReplica segmentSize (freshReplica segmentSize op) op with
        | .ok r2 => .ok { freeFrames := st.freeFrames - 1
                          registry := (op.key, r2) :: st.registry }
        | .error e => .error e
    else .error .badSegmentId

/-- Apply one `WriteSegment` RPC; an error response leaves the service
state unchanged (spec.md §7: client errors do not mutate state). -/
def replayStep (segmentSize : Nat) (st : BState) (op : WriteOp) : BState :=
  match writeSegment segmentSize st op with
  | .ok st2 => st2
  | .error _ => st

/-- Apply a sequence of `WriteSegment` RPCs, each either succeeding or
returning an error to the caller without mutating state. -/
def replaySeq (segmentSize : Nat) (st : BState) : List WriteOp → BState
  | [] => st
  | op :: ops => replaySeq segmentSize (replayStep segmentSize st op) ops

/-- Apply a sequence of `WriteSegment` RPCs, stopping at the first error. -/
def execSeq? (segmentSize : Nat) (st : BState) :
    List WriteOp → Except WErr BState
  | [] => .ok st
  | op :: ops =>
    match writeSegment segmentSize st op with
    | .ok st2 => execSeq? segmentSize st2 ops
    | .error e => .error e

end RAMCloud

namespace RAMCloud

/-! ## Basic registry lemmas -/

theorem lookupR_setR_self {reg : Registry} {k : ServerId × Nat} {r : Replica}
    (h : lookupR reg k = some r) (v : Replica) :
    lookupR (setR reg k v) k = some v := by
  induction reg with
  | nil => simp [lookupR] at h
  | cons e rest ih =>
    by_cases he : e.1 = k
    · simp [setR, he, lookupR]
    · simp [lookupR, he] at h
      simp [setR, he, lookupR, ih h]

theorem lookupR_setR_ne {reg : Registry} {k k' : ServerId × Nat} (v : Replica)
    (h : k ≠ k') :
    lookupR (setR reg k v) k' = lookupR reg k' := by
  induction reg with
  | nil => simp [setR]
  | cons e rest ih =>
    by_cases he : e.1 = k
    · subst he
      simp [setR, lookupR, h]
    · simp [setR, he, lookupR, ih]

theorem setR_lookup_self {reg : Registry} {k : ServerId × Nat} {r : Replica}
    (h : lookupR reg k = some r) : setR reg k r = reg := by
  induction reg with
  | nil => simp [lookupR] at h
  | cons e rest ih =>
    by_cases he : e.1 = k
    · simp [lookupR, he] at h
      subst he
      simp [setR, ← h]
    · simp [lookupR, he] at h
      simp [setR, he, ih h]

/-! ## C2 — `append` rejects illegal writes without mutating state -/

/-- C2: a data write (no OPEN/CLOSE flag) to a replica that is not open —
never opened, or already closed — fails with `BadSegmentId`, and a write to
an open replica whose `destinationOffset + length` exceeds `segmentSize`
fails with `SegmentOverflow`; in every case the service state is not
mutated. -/
theorem writeSegment_rejects_illegal_writes
    (segmentSize : Nat) (st : BState) (op : WriteOp)
    (hopen : op.flags.openF = false) (hclose : op.flags.closeF = false) :
    (lookupR st.registry op.key = none →
      writeSegment segmentSize st op = .error .badSegmentId ∧
      replayStep segmentSize st op = st) ∧
    (∀ r, lookupR st.registry op.key = some r → r.isOpen = false →
      writeSegment segmentSize st op = .error .badSegmentId ∧
      replayStep segmentSize st op = st) ∧
    (∀ r, lookupR st.registry op.key = some r →
      r.createdByCurrentProcess = true → r.isOpen = true →
      segmentSize < op.destOffset + op.length →
      writeSegment segmentSize st op = .error .segmentOverflow ∧
      replayStep segmentSize st op = st) := by
  refine ⟨fun hl => ?_, fun r hl hr => ?_, fun r hl hc hr hov => ?_⟩
  · simp [writeSegment, replayStep, hl, hopen]
  · by_cases hc : r.createdByCurrentProcess
    · simp [writeSegment, replayStep, writeToReplica, hl, hr, hclose, hc]
    · simp [writeSegment, replayStep, hl, hopen, hc]
  · simp [writeSegment, replayStep, writeToReplica, hl, hc, hr, hov]

/-- Concrete closed replica used to witness C2. -/
def c2rep : Replica :=
  { primary := true, createdByCurrentProcess := true,
    rightmostWrittenOffset := BYTES_WRITTEN_CLOSED, state := .closed,
    bytes := [0, 5, 6, 0] }

/-- Concrete service state holding the closed replica `(99,0),88`. -/
def c2st : BState := ⟨4, [(((99, 0), 88), c2rep)]⟩

/-- Concrete data write used to witness C2. -/
def c2op : WriteOp :=
  { masterId := (99, 0), segmentId := 88, src := [7], srcOffset := 0,
    destOffset := 1, length := 1, flags := ⟨false, false, false⟩ }

/-- Witness for C2: the data write `c2op` against the closed replica of
`c2st` fails with `BadSegmentId` and leaves the state unchanged. -/
theorem writeSegment_rejects_illegal_writes_witness :
    writeSegment 4 c2st c2op = .error .badSegmentId ∧
    replayStep 4 c2st c2op = c2st :=
  (writeSegment_rejects_illegal_writes 4 c2st c2op rfl rfl).2.1 c2rep
    (by decide) (by decide)

end RAMCloud

namespace RAMCloud

/-! ## C6 — open with no free storage frame fails StorageExhausted -/

/-- The `WriteSegment` RPC that opens segment `sid` of master `(99,0)` as
primary (flags OPENPRIMARY, zero-length write), as in the test helper
`openSegment`. -/
def openOp (sid : Nat) : WriteOp :=
  { masterId := (99, 0), segmentId := sid, src := [], srcOffset := 0,
    destOffset := 0, length := 0, flags := ⟨true, true, false⟩ }

/-- The five opens of the S3 scenario (`numFrames = 5`). -/
def c6ops : List WriteOp :=
  [openOp 85, openOp 86, openOp 87, openOp 88, openOp 89]

/-- The service state after the five successful opens of S3. -/
def c6st5 : BState := replaySeq 4 ⟨5, []⟩ c6ops

/-- C6: opening a fresh replica when no storage frame is available fails
with the storage-exhaustion error (surfaced as `BackupOpenRejected`,
spec.md §6 and test `writeSegment_openSegmentOutOfStorage`), without
mutating state; concretely, with `numFrames = 5` the five opens of
segments 85..89 all succeed and the sixth open of segment 90 is
rejected. -/
theorem open_storageExhausted
    (segmentSize : Nat) (st : BState) (op : WriteOp)
    (hl : lookupR st.registry op.key = none)
    (ho : op.flags.openF = true) (hf : st.freeFrames = 0) :
    (writeSegment segmentSize st op = .error .backupOpenRejected ∧
      replayStep segmentSize st op = st) ∧
    (execSeq? 4 ⟨5, []⟩ c6ops = .ok c6st5 ∧
      c6st5.freeFrames = 0 ∧
      writeSegment 4 c6st5 (openOp 90) = .error .backupOpenRejected) := by
  refine ⟨?_, by rfl, by rfl, by rfl⟩
  simp [writeSegment, replayStep, hl, ho, hf]

/-- Witness for C6: the sixth open of the S3 scenario is rejected with the
state unchanged. -/
theorem open_storageExhausted_witness :
    writeSegment 4 c6st5 (openOp 90) = .error .backupOpenRejected ∧
    replayStep 4 c6st5 (openOp 90) = c6st5 :=
  (open_storageExhausted 4 c6st5 (openOp 90) (by decide) (by decide)
    (by decide)).1

/-! ## C10 — replicas inherited from storage refuse writes -/

/-- C10: for a replica whose `createdByCurrentProcess` flag is false (one
inherited from storage at restart), a `WriteSegment` with an OPEN flag
fails with `BackupOpenRejected` and any other write fails with
`BadSegmentId`; whereas re-opening an already-open replica created by the
current process is accepted and leaves the state unchanged (test
`writeSegment_disallowOnReplicasFromStorage`). -/
theorem writeSegment_disallowOnReplicasFromStorage
    (segmentSize : Nat) (st : BState) (op : WriteOp) (r : Replica)
    (hl : lookupR st.registry op.key = some r)
    (hc : r.createdByCurrentProcess = false) :
    (op.flags.openF = true →
      writeSegment segmentSize st op = .error .backupOpenRejected) ∧
    (op.flags.openF = false →
      writeSegment segmentSize st op = .error .badSegmentId) ∧
    (∀ (st' : BState) (op' : WriteOp) (r' : Replica),
      lookupR st'.registry op'.key = some r' →
      r'.createdByCurrentProcess = true → r'.isOpen = true →
      op'.flags.openF = true → op'.flags.closeF = false →
      op'.destOffset = 0 → op'.length = 0 →
      writeSegment segmentSize st' op' = .ok st') := by
  refine ⟨fun ho => ?_, fun ho => ?_, fun st' op' r' hl' hc' hr' _ hcl hd hn => ?_⟩
  · simp [writeSegment, hl, hc, ho]
  · simp [writeSegment, hl, hc, ho]
  · have hdata : op'.data = [] := by
      simp [WriteOp.data, hn]
    have hw : writeToReplica segmentSize r' op' = .ok r' := by
      simp [writeToReplica, appliedWrite, hr', hcl, hd, hn, hdata, copyIn,
        Nat.max_zero]
    simp [writeSegment, hl', hc', hw, setR_lookup_self hl']

/-- Concrete replica inherited from storage, for the C10 witness. -/
def c10rep : Replica :=
  { primary := true, createdByCurrentProcess := false,
    rightmostWrittenOffset := 2, state := .opened, bytes := [1, 2, 0, 0] }

/-- Concrete service state for the C10 witness: `(99,0),88` was inherited
from storage, `(99,0),89` was opened by this process. -/
def c10st : BState :=
  ⟨3, [(((99, 0), 88), c10rep),
      (((99, 0), 89), freshReplica 4 (openOp 89))]⟩

/-- Witness for C10: re-sending OPEN for the inherited replica `(99,0),88`
is rejected, a data write to it fails `BadSegmentId`, and re-sending OPEN
for the own open replica `(99,0),89` succeeds unchanged. -/
theorem writeSegment_disallowOnReplicasFromStorage_witness :
    writeSegment 4 c10st (openOp 88) = .error .backupOpenRejected ∧
    writeSegment 4 c10st
      { masterId := (99, 0), segmentId := 88, src := [7], srcOffset := 0,
        destOffset := 1, length := 1, flags := ⟨false, false, false⟩ } =
      .error .badSegmentId ∧
    writeSegment 4 c10st (openOp 89) = .ok c10st := by
  refine ⟨?_, ?_, ?_⟩
  · exact (writeSegment_disallowOnReplicasFromStorage 4 c10st (openOp 88)
      c10rep (by decide) (by decide)).1 (by decide)
  · exact (writeSegment_disallowOnReplicasFromStorage 4 c10st _
      c10rep (by decide) (by decide)).2.1 (by decide)
  · exact (writeSegment_disallowOnReplicasFromStorage 4 c10st (openOp 88)
      c10rep (by decide) (by decide)).2.2 c10st (openOp 89)
      (freshReplica 4 (openOp 89)) (by decide) (by decide) (by decide)
      (by decide) (by decide) (by decide) (by decide)

/-! ## C1 counterexample — the unrestricted sequence-idempotence fails -/

/-- A data write to `(99,0),88` sent before any OPEN: it is rejected on a
first application but succeeds once a later OPEN created the replica. -/
def c1w : WriteOp :=
  { masterId := (99, 0), segmentId := 88, src := [7], srcOffset := 0,
    destOffset := 0, length := 1, flags := ⟨false, false, false⟩ }

/-- The two-RPC sequence `[data-write, open]` refuting unrestricted
sequence idempotence. -/
def c1ops : List WriteOp := [c1w, openOp 88]

/-- The initial service state for the C1 counterexample. -/
def c1st0 : BState := ⟨1, []⟩

/-- Counterexample to C1 as stated: applying the sequence
`[data-write (99,0),88 ; open (99,0),88]` twice does not yield the same
replica bytes and registry state as applying it once — the write is
rejected on the first pass (no replica is open yet) but succeeds on the
second pass, after the OPEN created the replica. -/
theorem writeSegment_sequence_idempotent_counterexample :
    replaySeq 2 (replaySeq 2 c1st0 c1ops) c1ops ≠ replaySeq 2 c1st0 c1ops := by
  decide

end RAMCloud

namespace RAMCloud

/-! ## Byte-level lemmas about `copyIn` -/

theorem WriteOp.data_length (op : WriteOp) : op.data.length = op.length := by
  simp [WriteOp.data, List.length_take]

theorem copyIn_length {b d : List Nat} {o : Nat} (h : o + d.length ≤ b.length) :
    (copyIn b o d).length = b.length := by
  simp [copyIn, List.length_take]
  omega

theorem copyIn_getElem_lt {b d : List Nat} {o i : Nat} (hi : i < o)
    (ho : o ≤ b.length) : (copyIn b o d)[i]? = b[i]? := by
  have h1 : i < (b.take o).length := by
    simp [List.length_take]
    omega
  rw [copyIn, List.append_assoc, List.getElem?_append_left h1,
    List.getElem?_take_of_lt hi]

theorem copyIn_getElem_mid {b d : List Nat} {o i : Nat} (h1 : o ≤ i)
    (h2 : i < o + d.length) (ho : o ≤ b.length) :
    (copyIn b o d)[i]? = d[i - o]? := by
  have hlen : (b.take o).length = o := by
    simp [List.length_take]
    omega
  have hge : (b.take o).length ≤ i := by omega
  rw [copyIn, List.append_assoc, List.getElem?_append_right hge, hlen,
    List.getElem?_append_left (by omega : i - o < d.length)]

theorem copyIn_getElem_ge {b d : List Nat} {o i : Nat} (h1 : o + d.length ≤ i)
    (hb : o + d.length ≤ b.length) : (copyIn b o d)[i]? = b[i]? := by
  have hlen : (b.take o).length = o := by
    simp [List.length_take]
    omega
  rw [copyIn, List.append_assoc,
    List.getElem?_append_right (by omega : (b.take o).length ≤ i), hlen,
    List.getElem?_append_right (by omega : d.length ≤ i - o),
    List.getElem?_drop]
  congr 1
  omega

theorem copyIn_idem {b d : List Nat} {o : Nat} (h : o + d.length ≤ b.length) :
    copyIn (copyIn b o d) o d = copyIn b o d := by
  have hl : (copyIn b o d).length = b.length := copyIn_length h
  apply List.ext_getElem?
  intro i
  by_cases hlt : i < o
  · rw [copyIn_getElem_lt hlt (by omega)]
  · by_cases hmid : i < o + d.length
    · rw [copyIn_getElem_mid (by omega) hmid (by omega),
        copyIn_getElem_mid (by omega) hmid (by omega)]
    · rw [copyIn_getElem_ge (by omega) (by omega),
        copyIn_getElem_ge (by omega) (by omega)]

/-! ## Per-key (single-replica) view of `WriteSegment` sequences -/

/-- The effect of one `WriteSegment` RPC on the single registry slot it
addresses (frames are not modelled here; the projection lemmas only apply
it where the global step does not consult the frame pool). -/
def stepK? (ss : Nat) (ro : Option Replica) (op : WriteOp) :
    Except WErr (Option Replica) :=
  match ro with
  | some r =>
    if r.createdByCurrentProcess then
      match writeToReplica ss r op with
      | .ok r2 => .ok (some r2)
      | .error e => .error e
    else
      if op.flags.openF then .error .backupOpenRejected
      else .error .badSegmentId
  | none =>
    if op.flags.openF then
      match writeToReplica ss (freshReplica ss op) op with
      | .ok r2 => .ok (some r2)
      | .error e => .error e
    else .error .badSegmentId

/-- Per-key replay of one RPC: an error leaves the slot unchanged. -/
def replayK1 (ss : Nat) (ro : Option Replica) (op : WriteOp) : Option Replica :=
  match stepK? ss ro op with
  | .ok x => x
  | .error _ => ro

/-- Per-key replay of a sequence of RPCs. -/
def replayK (ss : Nat) (ro : Option Replica) : List WriteOp → Option Replica
  | [] => ro
  | op :: ops => replayK ss (replayK1 ss ro op) ops

/-- Per-key execution of a sequence, stopping at the first error. -/
def execK? (ss : Nat) (ro : Option Replica) :
    List WriteOp → Except WErr (Option Replica)
  | [] => .ok ro
  | op :: ops =>
    match stepK? ss ro op with
    | .ok x => execK? ss x ops
    | .error e => .error e

/-- Per-key replay of a sequence on a plain replica (the slot is known to
be occupied). -/
def replayR1 (ss : Nat) (r : Replica) (op : WriteOp) : Replica :=
  match stepK? ss (some r) op with
  | .ok (some r2) => r2
  | _ => r

/-- Fold of `replayR1` over a sequence. -/
def replayR (ss : Nat) (r : Replica) : List WriteOp → Replica
  | [] => r
  | op :: ops => replayR ss (replayR1 ss r op) ops

theorem writeToReplica_open_write {ss : Nat} {r : Replica} {op : WriteOp}
    (ho : r.isOpen = true) (hb : op.destOffset + op.length ≤ ss)
    (hc : op.flags.closeF = false) :
    writeToReplica ss r op = .ok (appliedWrite r op) := by
  simp [writeToReplica, ho, Nat.not_lt.mpr hb, hc]

theorem writeToReplica_open_close {ss : Nat} {r : Replica} {op : WriteOp}
    (ho : r.isOpen = true) (hb : op.destOffset + op.length ≤ ss)
    (hc : op.flags.closeF = true) :
    writeToReplica ss r op =
      .ok { appliedWrite r op with
            rightmostWrittenOffset := BYTES_WRITTEN_CLOSED,
            state := .closed } := by
  simp [writeToReplica, ho, Nat.not_lt.mpr hb, hc]

theorem writeToReplica_notOpen {ss : Nat} {r : Replica} {op : WriteOp}
    (ho : r.isOpen = false) :
    writeToReplica ss r op =
      if op.flags.closeF then .ok r else .error .badSegmentId := by
  simp [writeToReplica, ho]

theorem stepK_ok_some {ss : Nat} {op : WriteOp} {ro x : Option Replica}
    (h : stepK? ss ro op = .ok x) : ∃ r2, x = some r2 := by
  cases ro with
  | some r =>
    by_cases hc : r.createdByCurrentProcess
    · cases hw : writeToReplica ss r op with
      | ok r2 =>
        simp [stepK?, hc, hw] at h
        exact ⟨r2, h.symm⟩
      | error e => simp [stepK?, hc, hw] at h
    · by_cases ho : op.flags.openF <;> simp [stepK?, hc, ho] at h
  | none =>
    by_cases ho : op.flags.openF
    · cases hw : writeToReplica ss (freshReplica ss op) op with
      | ok r2 =>
        simp [stepK?, ho, hw] at h
        exact ⟨r2, h.symm⟩
      | error e => simp [stepK?, ho, hw] at h
    · simp [stepK?, ho] at h

theorem replayK1_notOpen {ss : Nat} {r : Replica} {op : WriteOp}
    (ho : r.isOpen = false) : replayK1 ss (some r) op = some r := by
  by_cases hc : r.createdByCurrentProcess
  · rw [replayK1]
    simp [stepK?, hc, writeToReplica_notOpen ho]
    by_cases hcl : op.flags.closeF <;> simp [hcl]
  · by_cases hop : op.flags.openF <;> simp [replayK1, stepK?, hc, hop]

theorem replayK_notOpen {ss : Nat} {r : Replica} {ops : List WriteOp}
    (ho : r.isOpen = false) : replayK ss (some r) ops = some r := by
  induction ops with
  | nil => rfl
  | cons op tail ih => rw [replayK, replayK1_notOpen ho, ih]

theorem execK_notOpen {ss : Nat} {r : Replica} {ops : List WriteOp}
    {x : Option Replica} (h : execK? ss (some r) ops = .ok x)
    (ho : r.isOpen = false) : x = some r := by
  induction ops with
  | nil => simpa [execK?] using h.symm
  | cons op tail ih =>
    have hstep : stepK? ss (some r) op = .ok (some r) ∨
        ∃ e, stepK? ss (some r) op = .error e := by
      by_cases hc : r.createdByCurrentProcess
      · rw [stepK?]
        simp [hc, writeToReplica_notOpen ho]
        by_cases hcl : op.flags.closeF <;> simp [hcl]
      · by_cases hop : op.flags.openF <;> simp [stepK?, hc, hop]
    rcases hstep with hstep | ⟨e, hstep⟩
    · rw [execK?, hstep] at h
      exact ih h
    · rw [execK?, hstep] at h
      cases h

theorem execK_ok_some {ss : Nat} {r : Replica} {ops : List WriteOp}
    {x : Option Replica} (h : execK? ss (some r) ops = .ok x) :
    ∃ r2, x = some r2 := by
  induction ops generalizing r with
  | nil =>
    refine ⟨r, ?_⟩
    simpa [execK?] using h.symm
  | cons op tail ih =>
    rw [execK?] at h
    cases hstep : stepK? ss (some r) op with
    | ok y =>
      rw [hstep] at h
      obtain ⟨r1, rfl⟩ := stepK_ok_some hstep
      exact ih h
    | error e =>
      rw [hstep] at h
      cases h

end RAMCloud

namespace RAMCloud

/-! ## Well-formedness of replicas -/

/-- Well-formed replica for configured segment size `ss`: the stored bytes
fill the frame and `rightmostWrittenOffset` is a `u32` value. -/
def WFReplica (ss : Nat) (r : Replica) : Prop :=
  r.bytes.length = ss ∧ r.rightmostWrittenOffset ≤ BYTES_WRITTEN_CLOSED

/-- Byte positions targeted by the RPC `op`. -/
def inRegion (op : WriteOp) (i : Nat) : Prop :=
  op.destOffset ≤ i ∧ i < op.destOffset + op.length

/-- Byte positions targeted by some RPC of the sequence. -/
def coveredBy (ops : List WriteOp) (i : Nat) : Prop :=
  ∃ op ∈ ops, inRegion op i

theorem coveredBy_nil {i : Nat} : ¬ coveredBy [] i := by
  simp [coveredBy]

theorem coveredBy_cons {op : WriteOp} {ops : List WriteOp} {i : Nat} :
    coveredBy (op :: ops) i ↔ inRegion op i ∨ coveredBy ops i := by
  constructor
  · rintro ⟨w, hw, hr⟩
    rcases List.mem_cons.mp hw with rfl | hw
    · exact Or.inl hr
    · exact Or.inr ⟨w, hw, hr⟩
  · rintro (hr | ⟨w, hw, hr⟩)
    · exact ⟨op, List.mem_cons_self op ops, hr⟩
    · exact ⟨w, List.mem_cons_of_mem op hw, hr⟩

theorem isOpen_rwo_lt {ss : Nat} {r : Replica} (hwf : WFReplica ss r)
    (ho : r.isOpen = true) :
    r.rightmostWrittenOffset < BYTES_WRITTEN_CLOSED := by
  rcases hwf with ⟨-, h2⟩
  have h3 : r.rightmostWrittenOffset ≠ BYTES_WRITTEN_CLOSED := by
    simpa [Replica.isOpen, bne_iff_ne] using ho
  omega

theorem WF_appliedWrite {ss : Nat} {r : Replica} {op : WriteOp}
    (hss : ss ≤ BYTES_WRITTEN_CLOSED) (hwf : WFReplica ss r)
    (hb : op.destOffset + op.length ≤ ss) :
    WFReplica ss (appliedWrite r op) := by
  obtain ⟨h1, h2⟩ := hwf
  have hd : op.destOffset + op.data.length ≤ r.bytes.length := by
    rw [WriteOp.data_length, h1]
    exact hb
  refine ⟨?_, ?_⟩
  · show (copyIn r.bytes op.destOffset op.data).length = ss
    rw [copyIn_length hd, h1]
  · show max r.rightmostWrittenOffset (op.destOffset + op.length) ≤ _
    exact max_le h2 (le_trans hb hss)

theorem appliedWrite_isOpen {ss : Nat} {r : Replica} {op : WriteOp}
    (hwf : WFReplica ss r) (ho : r.isOpen = true)
    (hss : ss < BYTES_WRITTEN_CLOSED) (hb : op.destOffset + op.length ≤ ss) :
    (appliedWrite r op).isOpen = true := by
  have h1 := isOpen_rwo_lt hwf ho
  have h2 : max r.rightmostWrittenOffset (op.destOffset + op.length) ≠
      BYTES_WRITTEN_CLOSED := by
    have h3 := Nat.max_lt.mpr ⟨h1, lt_of_le_of_lt hb hss⟩
    omega
  simp [appliedWrite, Replica.isOpen, bne_iff_ne, h2]

theorem WF_fresh {ss : Nat} (op : WriteOp) : WFReplica ss (freshReplica ss op) := by
  constructor <;> simp [freshReplica]

theorem fresh_isOpen (ss : Nat) (op : WriteOp) :
    (freshReplica ss op).isOpen = true := by
  simp [freshReplica, Replica.isOpen, BYTES_WRITTEN_CLOSED]

theorem writeToReplica_WF {ss : Nat} {r r2 : Replica} {op : WriteOp}
    (hss : ss ≤ BYTES_WRITTEN_CLOSED) (hwf : WFReplica ss r)
    (h : writeToReplica ss r op = .ok r2) : WFReplica ss r2 := by
  by_cases ho : r.isOpen = true
  · by_cases hb : ss < op.destOffset + op.length
    · rw [writeToReplica] at h
      simp [ho, hb] at h
    · have hb' : op.destOffset + op.length ≤ ss := le_of_not_lt hb
      by_cases hcl : op.flags.closeF
      · rw [writeToReplica_open_close ho hb' hcl] at h
        injection h with h
        obtain ⟨hl, -⟩ := WF_appliedWrite hss hwf hb'
        rw [← h]
        exact ⟨hl, le_refl _⟩
      · rw [writeToReplica_open_write ho hb' (by simpa using hcl)] at h
        injection h with h
        rw [← h]
        exact WF_appliedWrite hss hwf hb'
  · have ho' : r.isOpen = false := by
      revert ho
      cases r.isOpen <;> simp
    rw [writeToReplica_notOpen ho'] at h
    by_cases hcl : op.flags.closeF
    · simp [hcl] at h
      rw [← h]
      exact hwf
    · simp [hcl] at h

theorem writeToReplica_cb {ss : Nat} {r r2 : Replica} {op : WriteOp}
    (h : writeToReplica ss r op = .ok r2) :
    r2.createdByCurrentProcess = r.createdByCurrentProcess := by
  by_cases ho : r.isOpen = true
  · by_cases hb : ss < op.destOffset + op.length
    · rw [writeToReplica] at h
      simp [ho, hb] at h
    · have hb' : op.destOffset + op.length ≤ ss := le_of_not_lt hb
      by_cases hcl : op.flags.closeF
      · rw [writeToReplica_open_close ho hb' hcl] at h
        injection h with h
        rw [← h]
        rfl
      · rw [writeToReplica_open_write ho hb' (by simpa using hcl)] at h
        injection h with h
        rw [← h]
        rfl
  · have ho' : r.isOpen = false := by
      revert ho
      cases r.isOpen <;> simp
    rw [writeToReplica_notOpen ho'] at h
    by_cases hcl : op.flags.closeF
    · simp [hcl] at h
      rw [← h]
    · simp [hcl] at h

theorem stepK_some_inv {ss : Nat} {r r1 : Replica} {op : WriteOp}
    (h : stepK? ss (some r) op = .ok (some r1)) :
    r.createdByCurrentProcess = true ∧ writeToReplica ss r op = .ok r1 := by
  by_cases hc : r.createdByCurrentProcess
  · cases hw : writeToReplica ss r op with
    | ok r2 =>
      simp [stepK?, hc, hw] at h
      refine ⟨hc, ?_⟩
      subst h
      rfl
    | error e => simp [stepK?, hc, hw] at h
  · by_cases ho : op.flags.openF <;> simp [stepK?, hc, ho] at h

theorem stepK_none_inv {ss : Nat} {r1 : Replica} {op : WriteOp}
    (h : stepK? ss none op = .ok (some r1)) :
    op.flags.openF = true ∧
    writeToReplica ss (freshReplica ss op) op = .ok r1 := by
  by_cases ho : op.flags.openF
  · cases hw : writeToReplica ss (freshReplica ss op) op with
    | ok r2 =>
      simp [stepK?, ho, hw] at h
      refine ⟨ho, ?_⟩
      subst h
      rfl
    | error e => simp [stepK?, ho, hw] at h
  · simp [stepK?, ho] at h

theorem stepK_WF {ss : Nat} {ro : Option Replica} {op : WriteOp} {r2 : Replica}
    (hss : ss ≤ BYTES_WRITTEN_CLOSED)
    (hwf : ∀ r, ro = some r → WFReplica ss r)
    (h : stepK? ss ro op = .ok (some r2)) : WFReplica ss r2 := by
  cases ro with
  | some r =>
    obtain ⟨-, hw⟩ := stepK_some_inv h
    exact writeToReplica_WF hss (hwf r rfl) hw
  | none =>
    obtain ⟨-, hw⟩ := stepK_none_inv h
    exact writeToReplica_WF hss (WF_fresh op) hw

theorem execK_WF {ss : Nat} {ops : List WriteOp} {r r2 : Replica}
    (hss : ss ≤ BYTES_WRITTEN_CLOSED) (hwf : WFReplica ss r)
    (h : execK? ss (some r) ops = .ok (some r2)) : WFReplica ss r2 := by
  induction ops generalizing r with
  | nil =>
    rw [execK?] at h
    injection h with h
    injection h with h
    rw [← h]
    exact hwf
  | cons op tail ih =>
    rw [execK?] at h
    cases hstep : stepK? ss (some r) op with
    | ok x =>
      rw [hstep] at h
      obtain ⟨r1, rfl⟩ := stepK_ok_some hstep
      exact ih (stepK_WF hss (fun r' hr' => by cases hr'; exact hwf) hstep) h
    | error e =>
      rw [hstep] at h
      cases h

theorem execK_cb {ss : Nat} {ops : List WriteOp} {r r2 : Replica}
    (h : execK? ss (some r) ops = .ok (some r2)) :
    r2.createdByCurrentProcess = r.createdByCurrentProcess := by
  induction ops generalizing r with
  | nil =>
    rw [execK?] at h
    injection h with h
    injection h with h
    rw [← h]
  | cons op tail ih =>
    rw [execK?] at h
    cases hstep : stepK? ss (some r) op with
    | ok x =>
      rw [hstep] at h
      obtain ⟨r1, rfl⟩ := stepK_ok_some hstep
      obtain ⟨hc, hw⟩ := stepK_some_inv hstep
      rw [ih h, writeToReplica_cb hw]
    | error e =>
      rw [hstep] at h
      cases h

end RAMCloud

namespace RAMCloud

/-- Turn a boolean non-truth into an explicit `= false`. -/
theorem bool_not_true {b : Bool} (h : ¬ b = true) : b = false := by
  cases b
  · rfl
  · exact absurd rfl h

/-- Facts extracted from an error-free per-key run that ends in a replica
that is still open: the start replica was open, `rightmostWrittenOffset`
never decreased, no RPC of the run carried a CLOSE flag or violated the
bounds check, and bytes outside the regions written by the run are
untouched. -/
theorem execK_open_facts {ss : Nat} (hss : ss < BYTES_WRITTEN_CLOSED) :
    ∀ (ops : List WriteOp) (r r2 : Replica),
    execK? ss (some r) ops = .ok (some r2) →
    r2.isOpen = true →
    WFReplica ss r →
    r.isOpen = true ∧
    r.rightmostWrittenOffset ≤ r2.rightmostWrittenOffset ∧
    (∀ op ∈ ops, op.flags.closeF = false ∧ op.destOffset + op.length ≤ ss) ∧
    (∀ i, ¬ coveredBy ops i → r2.bytes[i]? = r.bytes[i]?) := by
  intro ops
  induction ops with
  | nil =>
    intro r r2 h hr2 hwf
    rw [execK?] at h
    injection h with h
    injection h with h
    subst h
    exact ⟨hr2, le_refl _, by simp, fun i _ => rfl⟩
  | cons op tail ih =>
    intro r r2 h hr2 hwf
    rw [execK?] at h
    cases hstep : stepK? ss (some r) op with
    | error e =>
      rw [hstep] at h
      cases h
    | ok x =>
      rw [hstep] at h
      obtain ⟨r1, rfl⟩ := stepK_ok_some hstep
      obtain ⟨hcb, hw⟩ := stepK_some_inv hstep
      -- the start replica must be open, otherwise the run stays closed
      have hro : r.isOpen = true := by
        by_contra hro
        have hro' : r.isOpen = false := bool_not_true hro
        rw [writeToReplica_notOpen hro'] at hw
        by_cases hcl : op.flags.closeF
        · simp [hcl] at hw
          subst hw
          have h2 := execK_notOpen h hro'
          injection h2 with h2
          subst h2
          rw [hro'] at hr2
          cases hr2
        · simp [hcl] at hw
      -- the step must not carry a CLOSE flag, otherwise the run stays closed
      have hb : op.destOffset + op.length ≤ ss := by
        by_contra hb
        rw [writeToReplica] at hw
        simp [hro, Nat.lt_of_not_le hb] at hw
      have hcl : op.flags.closeF = false := by
        by_contra hcl
        have hcl' : op.flags.closeF = true := by
          revert hcl
          cases op.flags.closeF <;> simp
        rw [writeToReplica_open_close hro hb hcl'] at hw
        injection hw with hw
        have hclosed : r1.isOpen = false := by
          rw [← hw]
          simp [Replica.isOpen]
        have h2 := execK_notOpen h hclosed
        injection h2 with h2
        subst h2
        rw [hclosed] at hr2
        cases hr2
      rw [writeToReplica_open_write hro hb hcl] at hw
      injection hw with hw
      have hwf1 : WFReplica ss r1 := by
        rw [← hw]
        exact WF_appliedWrite hss.le hwf hb
      obtain ⟨h1, h2, h3, h4⟩ := ih r1 r2 h hr2 hwf1
      refine ⟨hro, ?_, ?_, ?_⟩
      · refine le_trans ?_ h2
        rw [← hw]
        exact le_max_left _ _
      · intro w hwmem
        rcases List.mem_cons.mp hwmem with rfl | hwmem
        · exact ⟨hcl, hb⟩
        · exact h3 w hwmem
      · intro i hcov
        rw [coveredBy_cons] at hcov
        push_neg at hcov
        obtain ⟨hcov1, hcov2⟩ := hcov
        rw [h4 i hcov2, ← hw]
        show (copyIn r.bytes op.destOffset op.data)[i]? = r.bytes[i]?
        rw [inRegion] at hcov1
        push_neg at hcov1
        have hlen : r.bytes.length = ss := hwf.1
        by_cases hi : i < op.destOffset
        · exact copyIn_getElem_lt hi (by omega)
        · have hge : op.destOffset + op.length ≤ i := by
            have := hcov1 (le_of_not_lt hi)
            omega
          refine copyIn_getElem_ge ?_ ?_
          · rw [WriteOp.data_length]
            exact hge
          · rw [WriteOp.data_length, hwf.1]
            exact hb

end RAMCloud

namespace RAMCloud

/-- A data write to an open replica owned by this process steps to
`appliedWrite`. -/
theorem stepK_open_write {ss : Nat} {r : Replica} {op : WriteOp}
    (hcb : r.createdByCurrentProcess = true) (hro : r.isOpen = true)
    (hb : op.destOffset + op.length ≤ ss) (hcl : op.flags.closeF = false) :
    stepK? ss (some r) op = .ok (some (appliedWrite r op)) := by
  simp [stepK?, hcb, writeToReplica_open_write hro hb hcl]

/-- Replaying a sequence of bounded, close-free RPCs on two open replicas
that differ only in bytes the sequence will overwrite produces the same
result. -/
theorem replayK_agree {ss : Nat} (hss : ss < BYTES_WRITTEN_CLOSED) :
    ∀ (ops : List WriteOp) (r : Replica) (b' : List Nat),
    r.isOpen = true →
    r.createdByCurrentProcess = true →
    WFReplica ss r →
    b'.length = r.bytes.length →
    (∀ i, ¬ coveredBy ops i → b'[i]? = r.bytes[i]?) →
    (∀ op ∈ ops, op.flags.closeF = false ∧ op.destOffset + op.length ≤ ss) →
    replayK ss (some { r with bytes := b' }) ops = replayK ss (some r) ops := by
  intro ops
  induction ops with
  | nil =>
    intro r b' hro hcb hwf hlen hagree hops
    have hb : b' = r.bytes := by
      apply List.ext_getElem?
      intro i
      exact hagree i coveredBy_nil
    rw [hb]
  | cons op tail ih =>
    intro r b' hro hcb hwf hlen hagree hops
    obtain ⟨hcl, hb⟩ := hops op (List.mem_cons_self op tail)
    have hro' : Replica.isOpen { r with bytes := b' } = true := hro
    have hcb' : ({ r with bytes := b' } : Replica).createdByCurrentProcess =
        true := hcb
    have hstep : stepK? ss (some r) op = .ok (some (appliedWrite r op)) :=
      stepK_open_write hcb hro hb hcl
    have hstep' : stepK? ss (some { r with bytes := b' }) op =
        .ok (some (appliedWrite { r with bytes := b' } op)) :=
      stepK_open_write hcb' hro' hb hcl
    have hdlen : op.destOffset + op.data.length ≤ ss := by
      rw [WriteOp.data_length]
      exact hb
    have hawb : appliedWrite { r with bytes := b' } op =
        { appliedWrite r op with bytes := copyIn b' op.destOffset op.data } := by
      simp [appliedWrite]
    have h1 : replayK1 ss (some { r with bytes := b' }) op =
        some { appliedWrite r op with
               bytes := copyIn b' op.destOffset op.data } := by
      simp only [replayK1, hstep']
      rw [hawb]
    have h2 : replayK1 ss (some r) op = some (appliedWrite r op) := by
      simp only [replayK1, hstep]
    show replayK ss (replayK1 ss (some { r with bytes := b' }) op) tail =
      replayK ss (replayK1 ss (some r) op) tail
    rw [h1, h2]
    have hawWF : WFReplica ss (appliedWrite r op) :=
      WF_appliedWrite hss.le hwf hb
    refine ih (appliedWrite r op) (copyIn b' op.destOffset op.data)
      (appliedWrite_isOpen hwf hro hss hb) hcb hawWF ?_ ?_
      (fun w hw => hops w (List.mem_cons_of_mem op hw))
    · show (copyIn b' op.destOffset op.data).length =
        (copyIn r.bytes op.destOffset op.data).length
      have hrb : r.bytes.length = ss := hwf.1
      rw [copyIn_length (by omega), copyIn_length (by omega), hlen]
    · intro i hcov
      show (copyIn b' op.destOffset op.data)[i]? =
        (copyIn r.bytes op.destOffset op.data)[i]?
      have hlb' : op.destOffset + op.data.length ≤ b'.length := by
        rw [hlen, hwf.1]
        exact hdlen
      have hlr : op.destOffset + op.data.length ≤ r.bytes.length := by
        rw [hwf.1]
        exact hdlen
      have hrb0 : r.bytes.length = ss := hwf.1
      by_cases hreg : inRegion op i
      · rw [copyIn_getElem_mid hreg.1 (by rw [WriteOp.data_length]; exact hreg.2)
          (by omega),
          copyIn_getElem_mid hreg.1 (by rw [WriteOp.data_length]; exact hreg.2)
          (by omega)]
      · have hrb : r.bytes.length = ss := hwf.1
        have hcov' : ¬ coveredBy (op :: tail) i := by
          rw [coveredBy_cons]
          push_neg
          exact ⟨hreg, hcov⟩
        rw [inRegion] at hreg
        push_neg at hreg
        by_cases hi : i < op.destOffset
        · rw [copyIn_getElem_lt hi (by omega), copyIn_getElem_lt hi (by omega)]
          exact hagree i hcov'
        · have hge : op.destOffset + op.data.length ≤ i := by
            rw [WriteOp.data_length]
            have := hreg (le_of_not_lt hi)
            omega
          rw [copyIn_getElem_ge hge (by omega), copyIn_getElem_ge hge (by omega)]
          exact hagree i hcov'

theorem replayK_some {ss : Nat} (ops : List WriteOp) :
    ∀ r, replayK ss (some r) ops = some (replayR ss r ops) := by
  induction ops with
  | nil => intro r; rfl
  | cons op tail ih =>
    intro r
    have h1 : replayK1 ss (some r) op = some (replayR1 ss r op) := by
      cases hstep : stepK? ss (some r) op with
      | ok x =>
        obtain ⟨r2, rfl⟩ := stepK_ok_some hstep
        simp [replayK1, replayR1, hstep]
      | error e => simp [replayK1, replayR1, hstep]
    rw [replayK, replayR, h1, ih]

end RAMCloud

namespace RAMCloud

/-- Replaying one data write `op` (already absorbed into the error-free run
`op :: tail` that produced the still-open replica `rN'`) and then the tail
reproduces `rN'`. -/
theorem replay_open_step {ss : Nat} (hss : ss < BYTES_WRITTEN_CLOSED)
    {op : WriteOp} {tail : List WriteOp} {src r1 rN' : Replica}
    (hsrcWF : WFReplica ss src)
    (hsrcCb : src.createdByCurrentProcess = true)
    (hcl : op.flags.closeF = false) (hb : op.destOffset + op.length ≤ ss)
    (hr1 : r1 = appliedWrite src op)
    (hex : execK? ss (some r1) tail = .ok (some rN'))
    (hN : rN'.isOpen = true)
    (hIH : replayK ss (some rN') tail = some rN') :
    replayK ss (replayK1 ss (some rN') op) tail = some rN' := by
  have hwf1 : WFReplica ss r1 := hr1 ▸ WF_appliedWrite hss.le hsrcWF hb
  obtain ⟨hf1, hf2, hf3, hf4⟩ := execK_open_facts hss tail r1 rN' hex hN hwf1
  have hcbN : rN'.createdByCurrentProcess = true := by
    rw [execK_cb hex, hr1]
    exact hsrcCb
  have hWFN : WFReplica ss rN' := execK_WF hss.le hwf1 hex
  have hdl : op.destOffset + op.length ≤ rN'.rightmostWrittenOffset := by
    refine le_trans ?_ hf2
    rw [hr1]
    show _ ≤ max src.rightmostWrittenOffset (op.destOffset + op.length)
    exact le_max_right _ _
  have hstep : stepK? ss (some rN') op = .ok (some (appliedWrite rN' op)) :=
    stepK_open_write hcbN hN hb hcl
  have haw : appliedWrite rN' op =
      { rN' with bytes := copyIn rN'.bytes op.destOffset op.data } := by
    simp [appliedWrite, Nat.max_eq_left hdl]
  have h1 : replayK1 ss (some rN') op =
      some { rN' with bytes := copyIn rN'.bytes op.destOffset op.data } := by
    simp only [replayK1, hstep]
    rw [haw]
  rw [h1]
  have hlb : rN'.bytes.length = ss := hWFN.1
  have hdlen : op.destOffset + op.data.length ≤ ss := by
    rw [WriteOp.data_length]
    exact hb
  have hagree : ∀ i, ¬ coveredBy tail i →
      (copyIn rN'.bytes op.destOffset op.data)[i]? = rN'.bytes[i]? := by
    intro i hcov
    by_cases hreg : inRegion op i
    · rw [copyIn_getElem_mid hreg.1
        (by rw [WriteOp.data_length]; exact hreg.2) (by omega)]
      rw [hf4 i hcov, hr1]
      have hsb : src.bytes.length = ss := hsrcWF.1
      show _ = (copyIn src.bytes op.destOffset op.data)[i]?
      rw [copyIn_getElem_mid hreg.1
        (by rw [WriteOp.data_length]; exact hreg.2) (by omega)]
    · rw [inRegion] at hreg
      push_neg at hreg
      by_cases hi : i < op.destOffset
      · exact copyIn_getElem_lt hi (by omega)
      · have hge : op.destOffset + op.data.length ≤ i := by
          rw [WriteOp.data_length]
          have := hreg (le_of_not_lt hi)
          omega
        exact copyIn_getElem_ge hge (by omega)
  have hlen2 : (copyIn rN'.bytes op.destOffset op.data).length =
      rN'.bytes.length := by
    apply copyIn_length
    omega
  calc replayK ss
        (some { rN' with bytes := copyIn rN'.bytes op.destOffset op.data })
        tail
      = replayK ss (some rN') tail :=
        replayK_agree hss tail rN' _ hN hcbN hWFN hlen2 hagree hf3
    _ = some rN' := hIH

/-- Per-key fixpoint: replaying an error-free run on its own final replica
state reproduces that state. -/
theorem replayK_fixpoint {ss : Nat} (hss : ss < BYTES_WRITTEN_CLOSED) :
    ∀ (ops : List WriteOp) (r0 rN : Option Replica),
    (∀ r, r0 = some r → WFReplica ss r) →
    execK? ss r0 ops = .ok rN →
    replayK ss rN ops = rN := by
  intro ops
  induction ops with
  | nil =>
    intro r0 rN hwf h
    rw [execK?] at h
    injection h with h
    subst h
    rfl
  | cons op tail ih =>
    intro r0 rN hwf h
    rw [execK?] at h
    cases hstep : stepK? ss r0 op with
    | error e =>
      rw [hstep] at h
      cases h
    | ok x =>
      rw [hstep] at h
      obtain ⟨r1, rfl⟩ := stepK_ok_some hstep
      obtain ⟨rN', rfl⟩ := execK_ok_some h
      have hwf1 : WFReplica ss r1 := stepK_WF hss.le hwf hstep
      have hIH : replayK ss (some rN') tail = some rN' :=
        ih (some r1) (some rN')
          (fun r hr => by injection hr with hr; subst hr; exact hwf1) h
      show replayK ss (replayK1 ss (some rN') op) tail = some rN'
      by_cases hN : rN'.isOpen = true
      · cases r0 with
        | some r =>
          obtain ⟨hcb, hw⟩ := stepK_some_inv hstep
          have hwfr : WFReplica ss r := hwf r rfl
          by_cases hro : r.isOpen = true
          · by_cases hbb : ss < op.destOffset + op.length
            · rw [writeToReplica] at hw
              simp [hro, hbb] at hw
            · have hb : op.destOffset + op.length ≤ ss := le_of_not_lt hbb
              by_cases hcl : op.flags.closeF = true
              · rw [writeToReplica_open_close hro hb hcl] at hw
                injection hw with hw
                have hclosed : r1.isOpen = false := by
                  rw [← hw]
                  simp [Replica.isOpen]
                have h2 := execK_notOpen h hclosed
                injection h2 with h2
                subst h2
                rw [hclosed] at hN
                simp at hN
              · have hcl' : op.flags.closeF = false := bool_not_true hcl
                rw [writeToReplica_open_write hro hb hcl'] at hw
                injection hw with hw
                exact replay_open_step hss hwfr hcb hcl' hb hw.symm h hN hIH
          · have hro' : r.isOpen = false := bool_not_true hro
            rw [writeToReplica_notOpen hro'] at hw
            by_cases hcl : op.flags.closeF
            · simp [hcl] at hw
              have hr1c : r1.isOpen = false := by
                rw [← hw]
                exact hro'
              have h2 := execK_notOpen h hr1c
              injection h2 with h2
              subst h2
              rw [hr1c] at hN
              simp at hN
            · simp [hcl] at hw
        | none =>
          obtain ⟨ho, hw⟩ := stepK_none_inv hstep
          have hfo := fresh_isOpen ss op
          by_cases hbb : ss < op.destOffset + op.length
          · rw [writeToReplica] at hw
            simp [hfo, hbb] at hw
          · have hb : op.destOffset + op.length ≤ ss := le_of_not_lt hbb
            by_cases hcl : op.flags.closeF = true
            · rw [writeToReplica_open_close hfo hb hcl] at hw
              injection hw with hw
              have hclosed : r1.isOpen = false := by
                rw [← hw]
                simp [Replica.isOpen]
              have h2 := execK_notOpen h hclosed
              injection h2 with h2
              subst h2
              rw [hclosed] at hN
              simp at hN
            · have hcl' : op.flags.closeF = false := bool_not_true hcl
              rw [writeToReplica_open_write hfo hb hcl'] at hw
              injection hw with hw
              exact replay_open_step hss (WF_fresh op) rfl hcl' hb
                hw.symm h hN hIH
      · have hN' : rN'.isOpen = false := bool_not_true hN
        rw [replayK1_notOpen hN']
        exact hIH

end RAMCloud

namespace RAMCloud

/-! ## Global-to-per-key projection -/

/-- The RPCs of a sequence addressed to registry key `k`. -/
def opsOn (k : ServerId × Nat) (ops : List WriteOp) : List WriteOp :=
  ops.filter (fun op => decide (op.key = k))

theorem opsOn_cons_eq {k : ServerId × Nat} {op : WriteOp}
    (tail : List WriteOp) (h : op.key = k) :
    opsOn k (op :: tail) = op :: opsOn k tail := by
  simp [opsOn, h]

theorem opsOn_cons_ne {k : ServerId × Nat} {op : WriteOp}
    (tail : List WriteOp) (h : ¬ op.key = k) :
    opsOn k (op :: tail) = opsOn k tail := by
  simp [opsOn, h]

theorem execK?_cons (ss : Nat) (ro : Option Replica) (op : WriteOp)
    (ops : List WriteOp) :
    execK? ss ro (op :: ops) =
      match stepK? ss ro op with
      | .ok x => execK? ss x ops
      | .error e => .error e := rfl

/-- One successful `WriteSegment` acts on its own registry key exactly as
`stepK?` and leaves every other key unchanged. -/
theorem writeSegment_ok_project {ss : Nat} {σ σ1 : BState} {op : WriteOp}
    (h : writeSegment ss σ op = .ok σ1) :
    stepK? ss (lookupR σ.registry op.key) op =
        .ok (lookupR σ1.registry op.key) ∧
    (∀ k, ¬ k = op.key → lookupR σ1.registry k = lookupR σ.registry k) := by
  cases hl : lookupR σ.registry op.key with
  | some r =>
    simp only [writeSegment, hl] at h
    by_cases hc : r.createdByCurrentProcess = true
    · rw [if_pos hc] at h
      cases hw : writeToReplica ss r op with
      | ok r2 =>
        rw [hw] at h
        injection h with h
        subst h
        constructor
        · simp only [stepK?, hc, if_pos, hw]
          rw [lookupR_setR_self hl r2]
        · intro k hk
          show lookupR (setR σ.registry op.key r2) k = _
          exact lookupR_setR_ne r2 (fun he => hk he.symm)
      | error e =>
        rw [hw] at h
        cases h
    · rw [if_neg hc] at h
      by_cases ho : op.flags.openF <;> simp [ho] at h
  | none =>
    simp only [writeSegment, hl] at h
    by_cases ho : op.flags.openF
    · rw [if_pos ho] at h
      by_cases hf : σ.freeFrames = 0
      · rw [if_pos hf] at h
        cases h
      · rw [if_neg hf] at h
        cases hw : writeToReplica ss (freshReplica ss op) op with
        | ok r2 =>
          rw [hw] at h
          injection h with h
          subst h
          constructor
          · simp only [stepK?, ho, if_pos, hw]
            show _ = .ok (lookupR ((op.key, r2) :: σ.registry) op.key)
            simp [lookupR]
          · intro k hk
            show lookupR ((op.key, r2) :: σ.registry) k = _
            have hne : ¬ op.key = k := fun he => hk he.symm
            simp [lookupR, hne]
        | error e =>
          rw [hw] at h
          cases h
    · rw [if_neg ho] at h
      cases h

/-- An error-free run projects, key by key, to error-free per-key runs. -/
theorem execSeq_project {ss : Nat} :
    ∀ (ops : List WriteOp) (σ σ2 : BState),
    execSeq? ss σ ops = .ok σ2 →
    ∀ k, execK? ss (lookupR σ.registry k) (opsOn k ops) =
      .ok (lookupR σ2.registry k) := by
  intro ops
  induction ops with
  | nil =>
    intro σ σ2 h k
    rw [execSeq?] at h
    injection h with h
    subst h
    rfl
  | cons op tail ih =>
    intro σ σ2 h k
    rw [execSeq?] at h
    cases hstep : writeSegment ss σ op with
    | error e =>
      rw [hstep] at h
      cases h
    | ok σ1 =>
      rw [hstep] at h
      obtain ⟨hp1, hp2⟩ := writeSegment_ok_project hstep
      by_cases hk : op.key = k
      · subst hk
        rw [opsOn_cons_eq tail rfl, execK?_cons, hp1]
        exact ih σ1 σ2 h op.key
      · rw [opsOn_cons_ne tail hk, ← hp2 k (fun he => hk he.symm)]
        exact ih σ1 σ2 h k

end RAMCloud

namespace RAMCloud

/-! ## Registry keys, nodup and well-formedness invariants -/

/-- Keys of the registry, in order. -/
def keysR (reg : Registry) : List (ServerId × Nat) := reg.map Prod.fst

/-- The registry holds at most one replica per `(masterId, segmentId)`. -/
def NodupKeys (reg : Registry) : Prop := (keysR reg).Nodup

/-- Every replica in the registry is well formed for segment size `ss`. -/
def WFState (ss : Nat) (σ : BState) : Prop := ∀ e ∈ σ.registry, WFReplica ss e.2

theorem keysR_setR (reg : Registry) (k : ServerId × Nat) (v : Replica) :
    keysR (setR reg k v) = keysR reg := by
  induction reg with
  | nil => rfl
  | cons e rest ih =>
    by_cases he : e.1 = k
    · simp [setR, he, keysR]
    · simp only [setR, if_neg he]
      simp [keysR] at ih
      simp [keysR, ih]

theorem lookupR_none_not_mem {reg : Registry} {k : ServerId × Nat}
    (h : lookupR reg k = none) : ¬ k ∈ keysR reg := by
  induction reg with
  | nil => simp [keysR]
  | cons e rest ih =>
    by_cases he : e.1 = k
    · simp [lookupR, he] at h
    · simp [lookupR, he] at h
      simp [keysR, List.mem_cons]
      refine ⟨fun hek => he hek.symm, ?_⟩
      have := ih h
      simpa [keysR] using this

theorem lookupR_mem {reg : Registry} {k : ServerId × Nat} {r : Replica}
    (h : lookupR reg k = some r) : (k, r) ∈ reg := by
  induction reg with
  | nil => cases h
  | cons e rest ih =>
    by_cases he : e.1 = k
    · simp [lookupR, he] at h
      subst h
      subst he
      simp
    · simp [lookupR, he] at h
      exact List.mem_cons_of_mem e (ih h)

theorem mem_lookupR {reg : Registry} :
    NodupKeys reg → ∀ {e}, e ∈ reg → lookupR reg e.1 = some e.2 := by
  induction reg with
  | nil =>
    intro _ e he
    cases he
  | cons f rest ih =>
    intro hnd e he
    have hnd' : ¬ f.1 ∈ keysR rest ∧ NodupKeys rest := by
      simpa [NodupKeys, keysR, List.nodup_cons] using hnd
    rcases List.mem_cons.mp he with rfl | he
    · simp [lookupR]
    · have hne : ¬ f.1 = e.1 := by
        intro hf
        apply hnd'.1
        rw [hf]
        exact List.mem_map_of_mem Prod.fst he
      simp [lookupR, hne]
      exact ih hnd'.2 he

theorem mem_setR {reg : Registry} {k : ServerId × Nat} {v : Replica} :
    ∀ e, e ∈ setR reg k v → e = (k, v) ∨ e ∈ reg := by
  induction reg with
  | nil =>
    intro e he
    cases he
  | cons f rest ih =>
    intro e he
    by_cases hf : f.1 = k
    · simp only [setR, if_pos hf] at he
      rcases List.mem_cons.mp he with rfl | he
      · exact Or.inl rfl
      · exact Or.inr (List.mem_cons_of_mem f he)
    · simp only [setR, if_neg hf] at he
      rcases List.mem_cons.mp he with rfl | he
      · exact Or.inr (List.mem_cons_self _ _)
      · rcases ih e he with h | h
        · exact Or.inl h
        · exact Or.inr (List.mem_cons_of_mem f h)

/-- A successful `WriteSegment` preserves key uniqueness. -/
theorem writeSegment_nodup {ss : Nat} {σ σ1 : BState} {op : WriteOp}
    (h : writeSegment ss σ op = .ok σ1) (hnd : NodupKeys σ.registry) :
    NodupKeys σ1.registry := by
  cases hl : lookupR σ.registry op.key with
  | some r =>
    simp only [writeSegment, hl] at h
    by_cases hc : r.createdByCurrentProcess = true
    · rw [if_pos hc] at h
      cases hw : writeToReplica ss r op with
      | ok r2 =>
        rw [hw] at h
        injection h with h
        subst h
        show NodupKeys (setR σ.registry op.key r2)
        rw [NodupKeys, keysR_setR]
        exact hnd
      | error e =>
        rw [hw] at h
        cases h
    · rw [if_neg hc] at h
      by_cases ho : op.flags.openF <;> simp [ho] at h
  | none =>
    simp only [writeSegment, hl] at h
    by_cases ho : op.flags.openF
    · rw [if_pos ho] at h
      by_cases hf : σ.freeFrames = 0
      · rw [if_pos hf] at h
        cases h
      · rw [if_neg hf] at h
        cases hw : writeToReplica ss (freshReplica ss op) op with
        | ok r2 =>
          rw [hw] at h
          injection h with h
          subst h
          show NodupKeys ((op.key, r2) :: σ.registry)
          rw [NodupKeys, keysR]
          simp only [List.map_cons, List.nodup_cons]
          exact ⟨lookupR_none_not_mem hl, hnd⟩
        | error e =>
          rw [hw] at h
          cases h
    · rw [if_neg ho] at h
      cases h

/-- A successful `WriteSegment` preserves replica well-formedness. -/
theorem writeSegment_WFState {ss : Nat} {σ σ1 : BState} {op : WriteOp}
    (hss : ss ≤ BYTES_WRITTEN_CLOSED)
    (h : writeSegment ss σ op = .ok σ1) (hwf : WFState ss σ) :
    WFState ss σ1 := by
  cases hl : lookupR σ.registry op.key with
  | some r =>
    simp only [writeSegment, hl] at h
    by_cases hc : r.createdByCurrentProcess = true
    · rw [if_pos hc] at h
      cases hw : writeToReplica ss r op with
      | ok r2 =>
        rw [hw] at h
        injection h with h
        subst h
        intro e he
        rcases mem_setR e he with rfl | he
        · exact writeToReplica_WF hss (hwf _ (lookupR_mem hl)) hw
        · exact hwf e he
      | error e =>
        rw [hw] at h
        cases h
    · rw [if_neg hc] at h
      by_cases ho : op.flags.openF <;> simp [ho] at h
  | none =>
    simp only [writeSegment, hl] at h
    by_cases ho : op.flags.openF
    · rw [if_pos ho] at h
      by_cases hf : σ.freeFrames = 0
      · rw [if_pos hf] at h
        cases h
      · rw [if_neg hf] at h
        cases hw : writeToReplica ss (freshReplica ss op) op with
        | ok r2 =>
          rw [hw] at h
          injection h with h
          subst h
          intro e he
          rcases List.mem_cons.mp he with rfl | he
          · exact writeToReplica_WF hss (WF_fresh op) hw
          · exact hwf e he
        | error e =>
          rw [hw] at h
          cases h
    · rw [if_neg ho] at h
      cases h

theorem execSeq_nodup {ss : Nat} :
    ∀ {ops : List WriteOp} {σ σ2 : BState},
    execSeq? ss σ ops = .ok σ2 → NodupKeys σ.registry →
    NodupKeys σ2.registry := by
  intro ops
  induction ops with
  | nil =>
    intro σ σ2 h hnd
    rw [execSeq?] at h
    injection h with h
    subst h
    exact hnd
  | cons op tail ih =>
    intro σ σ2 h hnd
    rw [execSeq?] at h
    cases hstep : writeSegment ss σ op with
    | error e =>
      rw [hstep] at h
      cases h
    | ok σ1 =>
      rw [hstep] at h
      exact ih h (writeSegment_nodup hstep hnd)

theorem execSeq_WFState {ss : Nat} (hss : ss ≤ BYTES_WRITTEN_CLOSED) :
    ∀ {ops : List WriteOp} {σ σ2 : BState},
    execSeq? ss σ ops = .ok σ2 → WFState ss σ → WFState ss σ2 := by
  intro ops
  induction ops with
  | nil =>
    intro σ σ2 h hwf
    rw [execSeq?] at h
    injection h with h
    subst h
    exact hwf
  | cons op tail ih =>
    intro σ σ2 h hwf
    rw [execSeq?] at h
    cases hstep : writeSegment ss σ op with
    | error e =>
      rw [hstep] at h
      cases h
    | ok σ1 =>
      rw [hstep] at h
      exact ih h (writeSegment_WFState hss hstep hwf)

theorem execSeq_keys_present {ss : Nat} {ops : List WriteOp} {σ σ2 : BState}
    (h : execSeq? ss σ ops = .ok σ2) :
    ∀ op ∈ ops, (lookupR σ2.registry op.key).isSome = true := by
  intro op hop
  have hp := execSeq_project ops σ σ2 h op.key
  have hmem : op ∈ opsOn op.key ops :=
    List.mem_filter.mpr ⟨hop, by simp⟩
  cases hsz : opsOn op.key ops with
  | nil =>
    rw [hsz] at hmem
    cases hmem
  | cons w tl =>
    rw [hsz, execK?_cons] at hp
    cases hstep : stepK? ss (lookupR σ.registry op.key) w with
    | error e =>
      rw [hstep] at hp
      cases hp
    | ok x =>
      rw [hstep] at hp
      obtain ⟨r1, rfl⟩ := stepK_ok_some hstep
      obtain ⟨r2, h2⟩ := execK_ok_some hp
      rw [h2]
      rfl

theorem exec_ok_replaySeq {ss : Nat} :
    ∀ {ops : List WriteOp} {σ σ2 : BState},
    execSeq? ss σ ops = .ok σ2 → replaySeq ss σ ops = σ2 := by
  intro ops
  induction ops with
  | nil =>
    intro σ σ2 h
    rw [execSeq?] at h
    injection h with h
  | cons op tail ih =>
    intro σ σ2 h
    rw [execSeq?] at h
    cases hstep : writeSegment ss σ op with
    | error e =>
      rw [hstep] at h
      cases h
    | ok σ1 =>
      rw [hstep] at h
      have hrs : replayStep ss σ op = σ1 := by
        rw [replayStep, hstep]
      show replaySeq ss (replayStep ss σ op) tail = σ2
      rw [hrs]
      exact ih h

end RAMCloud

namespace RAMCloud

/-- Replaying one RPC on a state where its key is present acts as an
in-place `setR` with the per-replica replay, leaving frames unchanged. -/
theorem replayStep_present {ss : Nat} {σ : BState} {op : WriteOp} {r : Replica}
    (hl : lookupR σ.registry op.key = some r) :
    replayStep ss σ op =
      ⟨σ.freeFrames, setR σ.registry op.key (replayR1 ss r op)⟩ := by
  by_cases hc : r.createdByCurrentProcess = true
  · cases hw : writeToReplica ss r op with
    | ok r2 =>
      have hws : writeSegment ss σ op =
          .ok { σ with registry := setR σ.registry op.key r2 } := by
        simp only [writeSegment, hl]
        simp [hc, hw]
      have hr1 : replayR1 ss r op = r2 := by
        simp [replayR1, stepK?, hc, hw]
      rw [replayStep, hws, hr1]
    | error e =>
      have hws : writeSegment ss σ op = .error e := by
        simp only [writeSegment, hl]
        simp [hc, hw]
      have hr1 : replayR1 ss r op = r := by
        simp [replayR1, stepK?, hc, hw]
      rw [replayStep, hws, hr1, setR_lookup_self hl]
  · have hr1 : replayR1 ss r op = r := by
      by_cases ho : op.flags.openF <;> simp [replayR1, stepK?, hc, ho]
    by_cases ho : op.flags.openF
    · have hws : writeSegment ss σ op = .error .backupOpenRejected := by
        simp only [writeSegment, hl]
        simp [hc, ho]
      rw [replayStep, hws, hr1, setR_lookup_self hl]
    · have hws : writeSegment ss σ op = .error .badSegmentId := by
        simp only [writeSegment, hl]
        simp [hc, ho]
      rw [replayStep, hws, hr1, setR_lookup_self hl]

theorem map_pair_eta (reg : Registry) :
    reg.map (fun e => (e.1, e.2)) = reg := by
  induction reg with
  | nil => rfl
  | cons e rest ih => simp [ih]

/-- Updating the slot of `op.key` with the replay of `op` and then mapping
the replay of `tail` over every slot is mapping the replay of `op :: tail`
over every slot. -/
theorem map_setR_replay {ss : Nat} (op : WriteOp) (tail : List WriteOp) :
    ∀ (reg : Registry) (r : Replica),
    NodupKeys reg →
    lookupR reg op.key = some r →
    (setR reg op.key (replayR1 ss r op)).map
      (fun e => (e.1, replayR ss e.2 (opsOn e.1 tail))) =
    reg.map (fun e => (e.1, replayR ss e.2 (opsOn e.1 (op :: tail)))) := by
  intro reg
  induction reg with
  | nil =>
    intro r hnd hl
    cases hl
  | cons f rest ih =>
    intro r hnd hl
    have hnd' : ¬ f.1 ∈ keysR rest ∧ NodupKeys rest := by
      simpa [NodupKeys, keysR, List.nodup_cons] using hnd
    by_cases hf : f.1 = op.key
    · simp only [lookupR, if_pos hf] at hl
      injection hl with hl
      simp only [setR, if_pos hf, List.map_cons]
      have hhead : (op.key, replayR ss (replayR1 ss r op) (opsOn op.key tail)) =
          (f.1, replayR ss f.2 (opsOn f.1 (op :: tail))) := by
        rw [hf, hl, opsOn_cons_eq tail rfl]
        rfl
      rw [hhead]
      have htail : rest.map (fun e => (e.1, replayR ss e.2 (opsOn e.1 tail))) =
          rest.map (fun e => (e.1, replayR ss e.2 (opsOn e.1 (op :: tail)))) := by
        apply List.map_congr_left
        intro x hx
        have hxk : ¬ op.key = x.1 := by
          intro hk
          apply hnd'.1
          rw [hf, hk]
          exact List.mem_map_of_mem Prod.fst hx
        rw [opsOn_cons_ne tail hxk]
      rw [htail]
    · simp only [lookupR, if_neg hf] at hl
      simp only [setR, if_neg hf, List.map_cons]
      rw [ih r hnd'.2 hl]
      have hfk : ¬ op.key = f.1 := fun hk => hf hk.symm
      rw [opsOn_cons_ne tail hfk]

/-- Replaying a sequence whose keys are all present acts slot-wise on the
registry and leaves the frame pool unchanged. -/
theorem replaySeq_project {ss : Nat} :
    ∀ (ops : List WriteOp) (σ : BState),
    NodupKeys σ.registry →
    (∀ op ∈ ops, (lookupR σ.registry op.key).isSome = true) →
    replaySeq ss σ ops =
      ⟨σ.freeFrames,
        σ.registry.map (fun e => (e.1, replayR ss e.2 (opsOn e.1 ops)))⟩ := by
  intro ops
  induction ops with
  | nil =>
    intro σ hnd hk
    show σ = _
    rw [show (fun e : (ServerId × Nat) × Replica =>
        (e.1, replayR ss e.2 (opsOn e.1 ([] : List WriteOp)))) =
        fun e => (e.1, e.2) from rfl]
    rw [map_pair_eta]
  | cons op tail ih =>
    intro σ hnd hk
    have hsome := hk op (List.mem_cons_self op tail)
    obtain ⟨r, hl⟩ : ∃ r, lookupR σ.registry op.key = some r := by
      cases hcase : lookupR σ.registry op.key with
      | some r => exact ⟨r, rfl⟩
      | none =>
        rw [hcase] at hsome
        cases hsome
    show replaySeq ss (replayStep ss σ op) tail = _
    rw [replayStep_present hl]
    have hnd1 : NodupKeys (setR σ.registry op.key (replayR1 ss r op)) := by
      rw [NodupKeys, keysR_setR]
      exact hnd
    have hk1 : ∀ w ∈ tail,
        (lookupR (setR σ.registry op.key (replayR1 ss r op)) w.key).isSome =
          true := by
      intro w hw
      by_cases hkey : w.key = op.key
      · rw [hkey, lookupR_setR_self hl]
        rfl
      · rw [lookupR_setR_ne _ (fun he => hkey he.symm)]
        exact hk w (List.mem_cons_of_mem op hw)
    rw [ih ⟨σ.freeFrames, setR σ.registry op.key (replayR1 ss r op)⟩ hnd1 hk1]
    show (⟨σ.freeFrames, _⟩ : BState) = ⟨σ.freeFrames, _⟩
    congr 1
    exact map_setR_replay op tail σ.registry r hnd hl

end RAMCloud

namespace RAMCloud

theorem appliedWrite_idem {ss : Nat} {r : Replica} {op : WriteOp}
    (hwf : WFReplica ss r) (hb : op.destOffset + op.length ≤ ss) :
    appliedWrite (appliedWrite r op) op = appliedWrite r op := by
  have hd : op.destOffset + op.data.length ≤ r.bytes.length := by
    rw [WriteOp.data_length, hwf.1]
    exact hb
  simp [appliedWrite, copyIn_idem hd, Nat.max_assoc]

/-- A `WriteSegment` whose replica-level effect is the identity leaves the
whole service state unchanged. -/
theorem writeSegment_stable {ss : Nat} {σ : BState} {op : WriteOp} {r : Replica}
    (hl : lookupR σ.registry op.key = some r)
    (hc : r.createdByCurrentProcess = true)
    (hw : writeToReplica ss r op = .ok r) :
    writeSegment ss σ op = .ok σ := by
  simp only [writeSegment, hl, if_pos hc, hw, setR_lookup_self hl]

/-- Repeating a CLOSE on an already-closed replica with the same identity
is accepted silently and changes nothing. -/
theorem writeSegment_redundant_close {ss : Nat} {σ : BState} {op : WriteOp}
    {r : Replica} (hl : lookupR σ.registry op.key = some r)
    (hc : r.createdByCurrentProcess = true) (hro : r.isOpen = false)
    (hcl : op.flags.closeF = true) :
    writeSegment ss σ op = .ok σ := by
  have hw : writeToReplica ss r op = .ok r := by
    rw [writeToReplica_notOpen hro, if_pos hcl]
  exact writeSegment_stable hl hc hw

/-- Repeating the same successful non-close `WriteSegment` is a no-op. -/
theorem writeSegment_repeat_write {ss : Nat} {σ σ1 : BState} {op : WriteOp}
    (hss : ss < BYTES_WRITTEN_CLOSED) (hwf : WFState ss σ)
    (hcl : op.flags.closeF = false)
    (h : writeSegment ss σ op = .ok σ1) :
    writeSegment ss σ1 op = .ok σ1 := by
  cases hl : lookupR σ.registry op.key with
  | some r =>
    simp only [writeSegment, hl] at h
    by_cases hc : r.createdByCurrentProcess = true
    · rw [if_pos hc] at h
      cases hw : writeToReplica ss r op with
      | error e =>
        rw [hw] at h
        cases h
      | ok r2 =>
        rw [hw] at h
        injection h with h
        subst h
        by_cases hro : r.isOpen = true
        · by_cases hbb : ss < op.destOffset + op.length
          · rw [writeToReplica] at hw
            simp [hro, hbb] at hw
          · have hb := le_of_not_lt hbb
            rw [writeToReplica_open_write hro hb hcl] at hw
            injection hw with hw
            subst hw
            have hwfr : WFReplica ss r := hwf _ (lookupR_mem hl)
            have hl2 : lookupR (setR σ.registry op.key (appliedWrite r op))
                op.key = some (appliedWrite r op) := lookupR_setR_self hl _
            refine writeSegment_stable hl2 hc ?_
            rw [writeToReplica_open_write
              (appliedWrite_isOpen hwfr hro hss hb) hb hcl,
              appliedWrite_idem hwfr hb]
        · have hro' : r.isOpen = false := bool_not_true hro
          rw [writeToReplica_notOpen hro', if_neg (by simp [hcl])] at hw
          cases hw
    · rw [if_neg hc] at h
      by_cases ho : op.flags.openF <;> simp [ho] at h
  | none =>
    simp only [writeSegment, hl] at h
    by_cases ho : op.flags.openF
    · rw [if_pos ho] at h
      by_cases hf : σ.freeFrames = 0
      · rw [if_pos hf] at h
        cases h
      · rw [if_neg hf] at h
        cases hw : writeToReplica ss (freshReplica ss op) op with
        | error e =>
          rw [hw] at h
          cases h
        | ok r2 =>
          rw [hw] at h
          injection h with h
          subst h
          have hfo := fresh_isOpen ss op
          by_cases hbb : ss < op.destOffset + op.length
          · rw [writeToReplica] at hw
            simp [hfo, hbb] at hw
          · have hb := le_of_not_lt hbb
            rw [writeToReplica_open_write hfo hb hcl] at hw
            injection hw with hw
            subst hw
            have hl2 : lookupR
                ((op.key, appliedWrite (freshReplica ss op) op) :: σ.registry)
                op.key = some (appliedWrite (freshReplica ss op) op) := by
              simp [lookupR]
            refine writeSegment_stable hl2 rfl ?_
            rw [writeToReplica_open_write
              (appliedWrite_isOpen (WF_fresh op) hfo hss hb) hb hcl,
              appliedWrite_idem (WF_fresh op) hb]
    · rw [if_neg ho] at h
      cases h

/-- C1 (amended): for a sequence of `WriteSegment` RPCs each of which
succeeds when the sequence is applied once (from a state whose registry has
unique keys and well-formed replicas), applying the sequence twice yields
the same replica bytes and registry state as applying it once; in
particular repeating the same (non-close) write is a no-op and a redundant
CLOSE on an already-closed replica with the same identity is accepted
silently without changing state. -/
theorem writeSegment_sequence_idempotent
    (ss : Nat) (σ σN : BState) (ops : List WriteOp)
    (hss : ss < BYTES_WRITTEN_CLOSED)
    (hnd : NodupKeys σ.registry)
    (hwf : WFState ss σ)
    (hok : execSeq? ss σ ops = .ok σN) :
    replaySeq ss (replaySeq ss σ ops) ops = replaySeq ss σ ops ∧
    (∀ (σ' σ1 : BState) (op : WriteOp), WFState ss σ' →
      op.flags.closeF = false → writeSegment ss σ' op = .ok σ1 →
      writeSegment ss σ1 op = .ok σ1) ∧
    (∀ (σ' : BState) (op : WriteOp) (r : Replica),
      lookupR σ'.registry op.key = some r →
      r.createdByCurrentProcess = true → r.isOpen = false →
      op.flags.closeF = true →
      writeSegment ss σ' op = .ok σ') := by
  refine ⟨?_,
    fun σ' σ1 op hwf' hcl h => writeSegment_repeat_write hss hwf' hcl h,
    fun σ' op r hl hc hro hcl => writeSegment_redundant_close hl hc hro hcl⟩
  have hrepl : replaySeq ss σ ops = σN := exec_ok_replaySeq hok
  rw [hrepl]
  have hndN : NodupKeys σN.registry := execSeq_nodup hok hnd
  have hkN := execSeq_keys_present hok
  rw [replaySeq_project ops σN hndN hkN]
  have hmap : σN.registry.map
      (fun e => (e.1, replayR ss e.2 (opsOn e.1 ops))) = σN.registry := by
    have hcongr : ∀ e ∈ σN.registry,
        (e.1, replayR ss e.2 (opsOn e.1 ops)) = (e.1, e.2) := by
      intro e he
      have hlN : lookupR σN.registry e.1 = some e.2 := mem_lookupR hndN he
      have hpk := execSeq_project ops σ σN hok e.1
      rw [hlN] at hpk
      have hwfk : ∀ r, lookupR σ.registry e.1 = some r → WFReplica ss r :=
        fun r hr => hwf _ (lookupR_mem hr)
      have hfix := replayK_fixpoint hss (opsOn e.1 ops)
        (lookupR σ.registry e.1) (some e.2) hwfk hpk
      rw [replayK_some _ e.2] at hfix
      injection hfix with hfix
      rw [hfix]
    calc σN.registry.map (fun e => (e.1, replayR ss e.2 (opsOn e.1 ops)))
        = σN.registry.map (fun e => (e.1, e.2)) := List.map_congr_left hcongr
      _ = σN.registry := map_pair_eta σN.registry
  rw [hmap]

/-- The CLOSE RPC for `(99,0),88` used in the C1 witness. -/
def c1close : WriteOp :=
  { masterId := (99, 0), segmentId := 88, src := [], srcOffset := 0,
    destOffset := 0, length := 0, flags := ⟨false, false, true⟩ }

/-- An error-free open/write/close/re-close sequence for the C1 witness. -/
def c1wops : List WriteOp :=
  [openOp 88,
   { masterId := (99, 0), segmentId := 88, src := [7, 8], srcOffset := 0,
     destOffset := 1, length := 2, flags := ⟨false, false, false⟩ },
   c1close, c1close]

/-- Initial state for the C1 witness. -/
def c1wst : BState := ⟨5, []⟩

/-- Final state of the single application of `c1wops`. -/
def c1wstN : BState := replaySeq 4 c1wst c1wops

/-- Witness for C1 (amended): the error-free sequence
open/write/close/redundant-close over `(99,0),88` is idempotent. -/
theorem writeSegment_sequence_idempotent_witness :
    replaySeq 4 (replaySeq 4 c1wst c1wops) c1wops = replaySeq 4 c1wst c1wops :=
  (writeSegment_sequence_idempotent 4 c1wst c1wstN c1wops (by decide)
    (by simp [NodupKeys, keysR, c1wst])
    (by intro e he; simp [c1wst] at he)
    (by rfl)).1

end RAMCloud

namespace RAMCloud

/-! ## C7 — openness is derived from `rightmostWrittenOffset` -/

/-- Replica-level triggers of the state machine of spec.md §4.4. -/
inductive ROp
  | ropen (primary : Bool)
  | rappend (destOff len : Nat)
  | rclose
  | rsetRecovering
  | rfree
deriving DecidableEq, Repr

/-- Modelled from the spec: one step of the `BackupReplica` state machine
(spec.md §4.4); `BackupReplica.cc` is not in the repository snapshot.
`open` moves UNINIT→OPEN setting `rightmostWrittenOffset ← 0`; `append`
requires OPEN and bounds and advances `rightmostWrittenOffset`; `close`
moves OPEN→CLOSED setting the `BYTES_WRITTEN_CLOSED` sentinel;
`setRecovering` is legal from OPEN or CLOSED and does not touch
`rightmostWrittenOffset`; `free` is legal from any state.  Illegal
triggers leave the replica unchanged. -/
def rstep (ss : Nat) (r : Replica) : ROp → Replica
  | .ropen p =>
    if r.state = .uninit then
      { r with state := .opened, primary := p, rightmostWrittenOffset := 0 }
    else r
  | .rappend d l =>
    if r.state = .opened ∧ d + l ≤ ss then
      { r with rightmostWrittenOffset := max r.rightmostWrittenOffset (d + l) }
    else r
  | .rclose =>
    if r.state = .opened then
      { r with state := .closed,
               rightmostWrittenOffset := BYTES_WRITTEN_CLOSED }
    else r
  | .rsetRecovering =>
    if r.state = .opened ∨ r.state = .closed then
      { r with state := .recovering }
    else r
  | .rfree => { r with state := .freed }

/-- Run a trace of replica-level triggers. -/
def rexec (ss : Nat) (r : Replica) : List ROp → Replica
  | [] => r
  | op :: ops => rexec ss (rstep ss r op) ops

/-- True iff some `rclose` of the trace fires from state OPEN, i.e. the
replica is successfully closed at some point of the trace. -/
def closeHappened (ss : Nat) (r : Replica) : List ROp → Bool
  | [] => false
  | op :: ops =>
    (decide (op = ROp.rclose) && decide (r.state = RState.opened)) ||
      closeHappened ss (rstep ss r op) ops

/-- The initial, never-written replica (state UNINIT). -/
def initReplica : Replica :=
  { primary := false, createdByCurrentProcess := true,
    rightmostWrittenOffset := 0, state := .uninit, bytes := [] }

/-- States from which no write (and hence no close) can ever happen
again. -/
def notWritable (r : Replica) : Prop :=
  ¬ r.state = RState.uninit ∧ ¬ r.state = RState.opened

theorem rstep_notWritable {ss : Nat} {r : Replica} (op : ROp)
    (h : notWritable r) :
    (rstep ss r op).rightmostWrittenOffset = r.rightmostWrittenOffset ∧
    notWritable (rstep ss r op) := by
  obtain ⟨h1, h2⟩ := h
  cases op with
  | ropen p => simp [rstep, h1, notWritable, h2]
  | rappend d l =>
    have : ¬ (r.state = RState.opened ∧ d + l ≤ ss) := fun hc => h2 hc.1
    simp [rstep, this, notWritable, h1, h2]
  | rclose => simp [rstep, h2, notWritable, h1]
  | rsetRecovering =>
    by_cases hc : r.state = RState.opened ∨ r.state = RState.closed
    · simp [rstep, hc, notWritable]
    · push_neg at hc
      simp [rstep, hc.1, hc.2, notWritable, h1, h2]
  | rfree => simp [rstep, notWritable]

theorem rexec_notWritable {ss : Nat} :
    ∀ (ops : List ROp) (r : Replica), notWritable r →
    (rexec ss r ops).rightmostWrittenOffset = r.rightmostWrittenOffset ∧
    closeHappened ss r ops = false := by
  intro ops
  induction ops with
  | nil => intro r h; exact ⟨rfl, rfl⟩
  | cons op tail ih =>
    intro r h
    obtain ⟨hs, hn⟩ := rstep_notWritable op h
    obtain ⟨ih1, ih2⟩ := ih (rstep ss r op) hn
    refine ⟨by rw [rexec, ih1, hs], ?_⟩
    rw [closeHappened, ih2]
    simp [h.2]

/-- The sentinel appears in `rightmostWrittenOffset` exactly when a close
has fired. -/
theorem rwo_closed_iff {ss : Nat} (hss : ss < BYTES_WRITTEN_CLOSED) :
    ∀ (ops : List ROp) (r : Replica),
    r.rightmostWrittenOffset < BYTES_WRITTEN_CLOSED →
    ((rexec ss r ops).rightmostWrittenOffset = BYTES_WRITTEN_CLOSED ↔
      closeHappened ss r ops = true) := by
  intro ops
  induction ops with
  | nil =>
    intro r hr
    rw [rexec, closeHappened]
    constructor
    · intro h
      omega
    · intro h
      cases h
  | cons op tail ih =>
    intro r hr
    rw [rexec, closeHappened]
    by_cases hfire : op = ROp.rclose ∧ r.state = RState.opened
    · obtain ⟨rfl, hop⟩ := hfire
      have hstep : rstep ss r ROp.rclose =
          { r with state := .closed,
                   rightmostWrittenOffset := BYTES_WRITTEN_CLOSED } := by
        simp [rstep, hop]
      have hnw : notWritable (rstep ss r ROp.rclose) := by
        rw [hstep]
        exact ⟨by simp, by simp⟩
      obtain ⟨hpres, -⟩ := rexec_notWritable tail (rstep ss r ROp.rclose) hnw
      rw [hpres, hstep]
      simp [hop]
    · have hbool :
          (decide (op = ROp.rclose) && decide (r.state = RState.opened)) =
            false := by
        rcases Decidable.not_and_iff_or_not.mp hfire with hop | hst
        · simp [hop]
        · simp [hst]
      rw [hbool]
      have hr' : (rstep ss r op).rightmostWrittenOffset <
          BYTES_WRITTEN_CLOSED := by
        cases op with
        | ropen p =>
          by_cases hu : r.state = RState.uninit <;> simp [rstep, hu] <;> omega
        | rappend d l =>
          by_cases hc : r.state = RState.opened ∧ d + l ≤ ss
          · have hdl : d + l ≤ ss := hc.2
            simp only [rstep, if_pos hc]
            show max r.rightmostWrittenOffset (d + l) < BYTES_WRITTEN_CLOSED
            exact Nat.max_lt.mpr ⟨hr, by omega⟩
          · simp only [rstep, if_neg hc]
            exact hr
        | rclose =>
          have hop : ¬ r.state = RState.opened := fun hs => hfire ⟨rfl, hs⟩
          simp [rstep, hop]
          exact hr
        | rsetRecovering =>
          by_cases hc : r.state = RState.opened ∨ r.state = RState.closed <;>
            simp [rstep, hc] <;> exact hr
        | rfree =>
          simp [rstep]
          exact hr
      rw [Bool.false_or]
      exact ih (rstep ss r op) hr'

/-- C7: `isOpen()` is derived from `rightmostWrittenOffset`, not from the
state tag — `isOpen()` returns true iff
`rightmostWrittenOffset ≠ BYTES_WRITTEN_CLOSED` (BackupReplica.h lines
96-101); along any trace from UNINIT, `rightmostWrittenOffset` equals the
sentinel exactly when a close has fired; and a replica in state RECOVERING
that was never closed still reports `isOpen() = true`. -/
theorem isOpen_characterization
    (ss : Nat) (ops : List ROp) (hss : ss < BYTES_WRITTEN_CLOSED) :
    ((rexec ss initReplica ops).isOpen = true ↔
      ¬ (rexec ss initReplica ops).rightmostWrittenOffset =
        BYTES_WRITTEN_CLOSED) ∧
    ((rexec ss initReplica ops).rightmostWrittenOffset =
        BYTES_WRITTEN_CLOSED ↔
      closeHappened ss initReplica ops = true) ∧
    ((rexec ss initReplica ops).state = RState.recovering →
      closeHappened ss initReplica ops = false →
      (rexec ss initReplica ops).isOpen = true) := by
  have hinit : initReplica.rightmostWrittenOffset < BYTES_WRITTEN_CLOSED := by
    show 0 < BYTES_WRITTEN_CLOSED
    omega
  have h2 := rwo_closed_iff hss ops initReplica hinit
  refine ⟨by simp [Replica.isOpen, bne_iff_ne], h2, ?_⟩
  intro _ hnc
  have : ¬ (rexec ss initReplica ops).rightmostWrittenOffset =
      BYTES_WRITTEN_CLOSED := by
    intro hc
    rw [h2.mp hc] at hnc
    cases hnc
  simp [Replica.isOpen, bne_iff_ne, this]

/-- The trace used to witness C7: open, append two bytes, then enter
RECOVERING without ever closing. -/
def c7ops : List ROp := [ROp.ropen true, ROp.rappend 0 2, ROp.rsetRecovering]

/-- Witness for C7, at the concrete trace `c7ops` with segment size 4: the
replica ends in RECOVERING, was never closed, and still reports open. -/
theorem isOpen_characterization_witness :
    ((rexec 4 initReplica c7ops).isOpen = true ↔
      ¬ (rexec 4 initReplica c7ops).rightmostWrittenOffset =
        BYTES_WRITTEN_CLOSED) ∧
    ((rexec 4 initReplica c7ops).rightmostWrittenOffset =
        BYTES_WRITTEN_CLOSED ↔
      closeHappened 4 initReplica c7ops = true) ∧
    ((rexec 4 initReplica c7ops).state = RState.recovering →
      closeHappened 4 initReplica c7ops = false →
      (rexec 4 initReplica c7ops).isOpen = true) :=
  isOpen_characterization 4 c7ops (by decide)

end RAMCloud

namespace RAMCloud

/-! ## C4 — log digest selection in `startReadingData` -/

/-- View of one replica of the crashed master as needed by the digest
selection of `startReadingData`: its segment id, its
`rightmostWrittenOffset` (with the closed sentinel), and the `LOGDIGEST`
entry at its head, when it holds one. -/
structure DigestReplica where
  segmentId : Nat
  rightmostWrittenOffset : Nat
  digest : Option (List Nat)
deriving DecidableEq, Repr

/-- Openness of the view, as in `BackupReplica::isOpen`
(BackupReplica.h lines 96-101). -/
def DigestReplica.isOpen (r : DigestReplica) : Bool :=
  r.rightmostWrittenOffset != BYTES_WRITTEN_CLOSED

/-- `getLogDigest`: true iff the replica is open and its head holds a
`LOGDIGEST` entry (spec.md §4.4). -/
def hasDigest (r : DigestReplica) : Bool :=
  r.isOpen && r.digest.isSome

/-- One comparison step of the selection: keep the candidate with the
smaller segment id. -/
def digestStep (best : Option DigestReplica) (r : DigestReplica) :
    Option DigestReplica :=
  match best with
  | none => some r
  | some b => if r.segmentId < b.segmentId then some r else some b

/-- Modelled from the spec: the digest selection of `startReadingData`
(spec.md §4.6) — among the still-open replicas holding a `LOGDIGEST`, the
one with the smallest segment id wins; closed replicas' digests are
ignored.  The body of `BackupService::startReadingData` is not in the
repository snapshot; behaviour pinned by tests
`startReadingData_logDigest_latest` and `startReadingData_logDigest_none`. -/
def pickDigest (rs : List DigestReplica) : Option DigestReplica :=
  (rs.filter hasDigest).foldl digestStep none

theorem digestFold_min :
    ∀ (l : List DigestReplica) (b m : DigestReplica),
    (m ∈ l ∨ m = b) →
    (∀ x, (x ∈ l ∨ x = b) → ¬ x = m → m.segmentId < x.segmentId) →
    l.foldl digestStep (some b) = some m := by
  intro l
  induction l with
  | nil =>
    intro b m hm hmin
    rcases hm with hm | rfl
    · cases hm
    · rfl
  | cons a rest ih =>
    intro b m hm hmin
    rw [List.foldl_cons]
    have hstep : ∃ b2, digestStep (some b) a = some b2 ∧ (b2 = a ∨ b2 = b) := by
      rw [digestStep]
      by_cases hlt : a.segmentId < b.segmentId
      · exact ⟨a, by rw [if_pos hlt], Or.inl rfl⟩
      · exact ⟨b, by rw [if_neg hlt], Or.inr rfl⟩
    obtain ⟨b2, hb2, hb2or⟩ := hstep
    rw [hb2]
    have hext : ∀ x, (x ∈ rest ∨ x = b2) → x ∈ a :: rest ∨ x = b := by
      intro x hx
      rcases hx with hx | rfl
      · exact Or.inl (List.mem_cons_of_mem a hx)
      · rcases hb2or with rfl | rfl
        · exact Or.inl (List.mem_cons_self _ _)
        · exact Or.inr rfl
    have hmin2 : ∀ x, (x ∈ rest ∨ x = b2) → ¬ x = m →
        m.segmentId < x.segmentId :=
      fun x hx hne => hmin x (hext x hx) hne
    refine ih b2 m ?_ hmin2
    by_cases hbm : m = b2
    · exact Or.inr hbm
    · rcases hm with hm | rfl
      · rcases List.mem_cons.mp hm with rfl | hm
        · -- m is the head a; since b2 ≠ m, the step must have kept b = b2,
          -- but then m.segmentId < b2.segmentId contradicts the comparison.
          exfalso
          rcases hb2or with rfl | rfl
          · exact hbm rfl
          · have h1 : m.segmentId < b2.segmentId :=
              hmin b2 (Or.inr rfl) (fun he => hbm he.symm)
            rw [digestStep, if_pos h1] at hb2
            injection hb2 with hb2
            exact hbm hb2
        · exact Or.inl hm
      · -- m = b; since b2 ≠ m the step replaced b by a, i.e. b2 = a with
        -- a.segmentId < m.segmentId, contradicting minimality of m.
        exfalso
        rcases hb2or with rfl | rfl
        · have h1 : m.segmentId < b2.segmentId :=
            hmin b2 (Or.inl (List.mem_cons_self _ _)) (fun he => hbm he.symm)
          rw [digestStep] at hb2
          by_cases hlt : b2.segmentId < m.segmentId
          · omega
          · rw [if_neg hlt] at hb2
            injection hb2 with hb2
            exact hbm hb2
        · exact hbm rfl

/-- C4: `startReadingData` returns the log digest of a still-open replica
only — if every replica holding a digest is closed, no digest is returned;
and when several open replicas hold digests, the one with the smallest
segment id wins.  Concretely (scenario S5, test
`startReadingData_logDigest_latest`), with segment 88 open holding a
digest and segment 89 closed holding another, the digest of 88 is
returned. -/
theorem startReadingData_digest_selection (rs : List DigestReplica) :
    ((∀ r ∈ rs, r.digest.isSome = true → r.isOpen = false) →
      pickDigest rs = none) ∧
    (∀ m ∈ rs, hasDigest m = true →
      (∀ x ∈ rs, hasDigest x = true → ¬ x = m →
        m.segmentId < x.segmentId) →
      pickDigest rs = some m) ∧
    pickDigest [⟨88, 14, some [0x39e874a1e85fc]⟩,
        ⟨89, BYTES_WRITTEN_CLOSED, some [0xbe5fbc1e62af6]⟩] =
      some ⟨88, 14, some [0x39e874a1e85fc]⟩ := by
  refine ⟨?_, ?_, by decide⟩
  · intro h
    have hfil : rs.filter hasDigest = [] := by
      rw [List.filter_eq_nil_iff]
      intro r hr
      cases hsome : r.digest.isSome with
      | true =>
        have := h r hr hsome
        simp [hasDigest, this]
      | false => simp [hasDigest, hsome]
    rw [pickDigest, hfil]
    rfl
  · intro m hmem hdig hmin
    have hmf : m ∈ rs.filter hasDigest := List.mem_filter.mpr ⟨hmem, hdig⟩
    cases hfil : rs.filter hasDigest with
    | nil =>
      rw [hfil] at hmf
      cases hmf
    | cons a l =>
      rw [pickDigest, hfil, List.foldl_cons]
      show l.foldl digestStep (digestStep none a) = some m
      rw [show digestStep none a = some a from rfl]
      have hmem' : ∀ x, x ∈ l ∨ x = a → x ∈ rs ∧ hasDigest x = true := by
        intro x hx
        have hx2 : x ∈ rs.filter hasDigest := by
          rw [hfil]
          rcases hx with hx | rfl
          · exact List.mem_cons_of_mem a hx
          · exact List.mem_cons_self _ _
        exact ⟨(List.mem_filter.mp hx2).1, (List.mem_filter.mp hx2).2⟩
      refine digestFold_min l a m ?_ ?_
      · rw [hfil] at hmf
        rcases List.mem_cons.mp hmf with rfl | hmf
        · exact Or.inr rfl
        · exact Or.inl hmf
      · intro x hx hne
        obtain ⟨hx1, hx2⟩ := hmem' x hx
        exact hmin x hx1 hx2 hne

/-- Witness for C4: with two open digest-holding replicas (segments 89 and
88), the one with the smallest segment id (88) is returned. -/
theorem startReadingData_digest_selection_witness :
    pickDigest [⟨89, 3, some [0xbe5fbc1e62af6]⟩,
        ⟨88, 14, some [0x39e874a1e85fc]⟩] =
      some ⟨88, 14, some [0x39e874a1e85fc]⟩ :=
  (startReadingData_digest_selection
      [⟨89, 3, some [0xbe5fbc1e62af6]⟩,
        ⟨88, 14, some [0x39e874a1e85fc]⟩]).2.1
    ⟨88, 14, some [0x39e874a1e85fc]⟩ (by decide) (by decide) (by decide)

end RAMCloud

namespace RAMCloud

/-! ## C8 — frame trailer layout (`BackupReplicaMetadata`) -/

/-- `Segment::Certificate` as stored in the trailer: the certified length
and a checksum, both u32 (8 bytes in total — forced by the source's
`static_assert(sizeof(BackupReplicaMetadata) == 33)`, since the remaining
fields occupy 25 bytes). -/
structure Certificate where
  segmentLength : Nat
  checksum : Nat
deriving DecidableEq, Repr

/-- `BackupReplicaMetadata` (BackupReplica.h lines 200-294): certificate,
logId:u64, segmentId:u64, segmentCapacity:u32, closed:u8, checksum:u32,
declared `__attribute__((packed))` — no padding between fields. -/
structure BackupReplicaMetadata where
  certificate : Certificate
  logId : Nat
  segmentId : Nat
  segmentCapacity : Nat
  closed : Bool
  checksum : Nat
deriving DecidableEq, Repr

/-- Little-endian encoding of a u32 field. -/
def encodeU32 (n : Nat) : List Nat :=
  [n % 256, n / 256 % 256, n / 256 ^ 2 % 256, n / 256 ^ 3 % 256]

/-- Little-endian encoding of a u64 field. -/
def encodeU64 (n : Nat) : List Nat :=
  [n % 256, n / 256 % 256, n / 256 ^ 2 % 256, n / 256 ^ 3 % 256,
   n / 256 ^ 4 % 256, n / 256 ^ 5 % 256, n / 256 ^ 6 % 256,
   n / 256 ^ 7 % 256]

/-- The bytes of the trailer preceding the trailing checksum field —
exactly what `Crc32C.update(this, sizeof(*this) - sizeof(checksum))`
covers in the constructor and in `checkIntegrity`. -/
def metadataBody (m : BackupReplicaMetadata) : List Nat :=
  encodeU32 m.certificate.segmentLength ++
    encodeU32 m.certificate.checksum ++
    encodeU64 m.logId ++ encodeU64 m.segmentId ++
    encodeU32 m.segmentCapacity ++ [if m.closed then 1 else 0]

/-- The packed on-storage encoding of the whole trailer. -/
def encodeMetadata (m : BackupReplicaMetadata) : List Nat :=
  metadataBody m ++ encodeU32 m.checksum

/-- C8: the encoded frame trailer occupies exactly 33 bytes with no
padding between fields — 4+4 (certificate) + 8 (logId) + 8 (segmentId) +
4 (segmentCapacity) + 1 (closed) + 4 (checksum), the packed concatenation
of the fields, matching the source's
`static_assert(sizeof(BackupReplicaMetadata) == 33)`. -/
theorem metadata_encoding_33_bytes (m : BackupReplicaMetadata) :
    (encodeMetadata m).length = 33 ∧ (metadataBody m).length = 29 := by
  constructor <;> simp [encodeMetadata, metadataBody, encodeU32, encodeU64]

/-! ## C5 — restart inventory round-trips intact replicas -/

/-- Modelled from the spec: stand-in for `Crc32C` over the trailer body
(the CRC32C implementation is an external collaborator, not in the
repository snapshot); any concrete digest works since `checkIntegrity`
only recomputes it and compares with the stored field. -/
def crcModel (bytes : List Nat) : Nat :=
  bytes.foldl (fun a b => (a * 131 + b) % 2 ^ 32) 17

/-- Seal metadata with its checksum as the `BackupReplicaMetadata`
constructor does (BackupReplica.h lines 206-222): checksum over all
preceding fields. -/
def mkMetadata (cert : Certificate) (logId segmentId segmentCapacity : Nat)
    (closed : Bool) : BackupReplicaMetadata :=
  { certificate := cert, logId := logId, segmentId := segmentId,
    segmentCapacity := segmentCapacity, closed := closed,
    checksum := crcModel (metadataBody
      { certificate := cert, logId := logId, segmentId := segmentId,
        segmentCapacity := segmentCapacity, closed := closed,
        checksum := 0 }) }

/-- `BackupReplicaMetadata::checkIntegrity` (BackupReplica.h lines
238-243): recompute the checksum of the fields before `checksum` and
compare with the stored value. -/
def checkIntegrity (m : BackupReplicaMetadata) : Bool :=
  crcModel (metadataBody m) == m.checksum

/-- A replica as reconstructed by the restart scanner: identity, closed
state and the inherited-from-storage flag. -/
structure RestartReplica where
  masterId : Nat
  segmentId : Nat
  closedState : Bool
  createdByCurrentProcess : Bool
deriving DecidableEq, Repr

/-- A frame holds an intact replica iff its trailer passes the CRC check
and its `segmentCapacity` matches the configured capacity (spec.md §3:
such a trailer is otherwise treated as absent). -/
def frameIntact (capacity : Nat) (fo : Option BackupReplicaMetadata) : Bool :=
  match fo with
  | some m => checkIntegrity m && (m.segmentCapacity == capacity)
  | none => false

/-- Modelled from the spec: `BackupService::restartFromStorage` (spec.md
§4.7; the body is not in the repository snapshot, behaviour pinned by the
test `restartFromStorage`): each frame with an intact trailer contributes
a replica in state OPEN or CLOSED according to the trailer's closed flag,
with `createdByCurrentProcess = false`; other frames contribute nothing. -/
def restartFromStorage (capacity : Nat)
    (frames : List (Option BackupReplicaMetadata)) : List RestartReplica :=
  frames.filterMap (fun fo =>
    match fo with
    | some m =>
      if checkIntegrity m && (m.segmentCapacity == capacity) then
        some ⟨m.logId, m.segmentId, m.closed, false⟩
      else none
    | none => none)

/-- Free-map after restart: a frame stays free iff it held no intact
replica. -/
def framesFreeAfterRestart (capacity : Nat)
    (frames : List (Option BackupReplicaMetadata)) : List Bool :=
  frames.map (fun fo => !frameIntact capacity fo)

/-- The S6 scenario frames: closed `(70,88)`, open `(70,89)`, corrupt
trailer for `(70,90)`, wrong segmentCapacity for `(70,91)`, open
`(71,89)`; configured capacity 4096. -/
def c5frames : List (Option BackupReplicaMetadata) :=
  [some (mkMetadata ⟨0, 0⟩ 70 88 4096 true),
   some (mkMetadata ⟨0, 0⟩ 70 89 4096 false),
   some { mkMetadata ⟨0, 0⟩ 70 90 4096 true with checksum := 0 },
   some (mkMetadata ⟨0, 0⟩ 70 91 8192 true),
   some (mkMetadata ⟨0, 0⟩ 71 89 4096 false)]

/-- C5: after a restart the registry holds exactly one replica per frame
whose trailer passes the CRC check with the configured capacity, in OPEN
or CLOSED state per the trailer's closed flag and with
`createdByCurrentProcess = false`; frames with corrupt or mismatched
trailers contribute nothing and stay free.  Concretely (scenario S6) only
`(70,88)` closed, `(70,89)` open and `(71,89)` open survive, and precisely
the two bad frames are free. -/
theorem restartFromStorage_inventory (capacity : Nat)
    (frames : List (Option BackupReplicaMetadata)) :
    (∀ r ∈ restartFromStorage capacity frames,
      r.createdByCurrentProcess = false ∧
      ∃ m, some m ∈ frames ∧ checkIntegrity m = true ∧
        m.segmentCapacity = capacity ∧
        r = ⟨m.logId, m.segmentId, m.closed, false⟩) ∧
    (∀ m : BackupReplicaMetadata, some m ∈ frames →
      checkIntegrity m = true → m.segmentCapacity = capacity →
      (⟨m.logId, m.segmentId, m.closed, false⟩ : RestartReplica) ∈
        restartFromStorage capacity frames) ∧
    (∀ i : Nat, (framesFreeAfterRestart capacity frames)[i]? =
      (frames[i]?).map (fun fo => !frameIntact capacity fo)) ∧
    (restartFromStorage 4096 c5frames =
      [⟨70, 88, true, false⟩, ⟨70, 89, false, false⟩,
        ⟨71, 89, false, false⟩] ∧
      framesFreeAfterRestart 4096 c5frames =
        [false, false, true, true, false]) := by
  refine ⟨?_, ?_, ?_, by decide, by decide⟩
  · intro r hr
    obtain ⟨fo, hfo, hf⟩ := List.mem_filterMap.mp hr
    cases fo with
    | none => cases hf
    | some m =>
      have hf2 : (if checkIntegrity m && (m.segmentCapacity == capacity) then
          some (⟨m.logId, m.segmentId, m.closed, false⟩ : RestartReplica)
          else none) = some r := hf
      by_cases hok : checkIntegrity m && (m.segmentCapacity == capacity)
      · rw [if_pos hok] at hf2
        injection hf2 with hf2
        obtain ⟨h1, h2⟩ := (Bool.and_eq_true _ _).mp hok
        refine ⟨by rw [← hf2], m, hfo, h1, beq_iff_eq.mp h2, hf2.symm⟩
      · rw [if_neg hok] at hf2
        cases hf2
  · intro m hm h1 h2
    refine List.mem_filterMap.mpr ⟨some m, hm, ?_⟩
    show (if checkIntegrity m && (m.segmentCapacity == capacity) then
        some (⟨m.logId, m.segmentId, m.closed, false⟩ : RestartReplica)
        else none) = _
    rw [if_pos]
    rw [h1, Bool.true_and]
    exact beq_iff_eq.mpr h2
  · intro i
    rw [framesFreeAfterRestart, List.getElem?_map]

/-- Witness for C5: the intact open trailer for `(71,89)` of the S6
scenario yields the registry entry `(71,89)` open, inherited from
storage. -/
theorem restartFromStorage_inventory_witness :
    (⟨71, 89, false, false⟩ : RestartReplica) ∈
      restartFromStorage 4096 c5frames :=
  (restartFromStorage_inventory 4096 c5frames).2.1
    (mkMetadata ⟨0, 0⟩ 71 89 4096 false) (by decide) (by decide) (by decide)

end RAMCloud

namespace RAMCloud

/-! ## C3 — recovery-segment builder: partition and filter -/

/-- Log entries as far as the builder distinguishes them (spec.md §3):
the segment header, objects and tombstones carrying their (tableId, key),
the log digest, and opaque other entries. -/
inductive LogEntry
  | seghdr (masterId segmentId : Nat)
  | obj (tableId : Nat) (key : List Nat) (value : List Nat)
  | objtomb (tableId : Nat) (key : List Nat)
  | logdigest (ids : List Nat)
  | other
deriving DecidableEq, Repr

/-- Modelled from the spec: stand-in for `Key::getHash` (the MurmurHash3
implementation is an external collaborator, not in the repository
snapshot); any concrete hash works since tablets are specified by hash
ranges. -/
def keyHash (tableId : Nat) (key : List Nat) : Nat :=
  key.foldl (fun a c => a * 256 + c + 1) (tableId + 1)

/-- The (tableId, keyHash) of OBJ and OBJTOMB entries; `none` for the
entry types the builder skips. -/
def entryTableHash : LogEntry → Option (Nat × Nat)
  | .obj t k _ => some (t, keyHash t k)
  | .objtomb t k => some (t, keyHash t k)
  | _ => none

/-- A tablet of the partition map (spec.md §4.5 and
`createTabletList` in BackupServiceTest.cc): table id, inclusive key-hash
range, owning partition, and creation time as a log position. -/
structure Tablet where
  tableId : Nat
  startKeyHash : Nat
  endKeyHash : Nat
  partitionId : Nat
  ctimeSegmentId : Nat
  ctimeSegmentOffset : Nat
deriving DecidableEq, Repr

/-- Whether the tablet covers the (tableId, keyHash) pair. -/
def tabletMatches (tb : Tablet) (t h : Nat) : Bool :=
  (tb.tableId == t) && decide (tb.startKeyHash ≤ h) &&
    decide (h ≤ tb.endKeyHash)

/-- `whichPartition` (declared in BackupReplica.h lines 30-33): the first
tablet of the partition map covering the pair, if any. -/
def whichPartition (t h : Nat) (parts : List Tablet) : Option Tablet :=
  parts.find? (fun tb => tabletMatches tb t h)

theorem whichPartition_mem {t h : Nat} {parts : List Tablet} {tb : Tablet}
    (hw : whichPartition t h parts = some tb) : tb ∈ parts := by
  have hw2 : List.find? (fun x => tabletMatches x t h) parts = some tb := hw
  exact @List.mem_of_find?_eq_some Tablet (fun x => tabletMatches x t h)
    tb parts hw2

theorem whichPartition_matches {t h : Nat} {parts : List Tablet}
    {tb : Tablet} (hw : whichPartition t h parts = some tb) :
    tabletMatches tb t h = true := by
  have hw2 : List.find? (fun x => tabletMatches x t h) parts = some tb := hw
  exact @List.find?_some Tablet (fun x => tabletMatches x t h) tb parts hw2

/-- Modelled from the spec: `isEntryAlive` (declared in BackupReplica.h
lines 27-29; body not in the repository snapshot, modelled from spec.md
§4.5): the entry at log position `pos` is kept unless `pos` precedes the
tablet's creation time in lexicographic order, except when the header's
segment id equals the tablet's ctime head segment and the entry lies in
that same log head. -/
def isEntryAlive (pos : Nat × Nat) (tb : Tablet) (headerSegId : Nat) : Bool :=
  !(decide (pos.1 < tb.ctimeSegmentId ∨
      (pos.1 = tb.ctimeSegmentId ∧ pos.2 < tb.ctimeSegmentOffset))) ||
    ((headerSegId == tb.ctimeSegmentId) && (pos.1 == tb.ctimeSegmentId))

/-- Whether the entry at byte offset `off` of segment `segId` belongs in
the output segment of partition `pid`. -/
def keepEntry (segId pid : Nat) (parts : List Tablet) (off : Nat)
    (e : LogEntry) : Bool :=
  match entryTableHash e with
  | none => false
  | some (t, h) =>
    match whichPartition t h parts with
    | none => false
    | some tb =>
      (tb.partitionId == pid) && isEntryAlive (segId, off) tb segId

/-- Modelled from the spec: the recovery-segment builder's output for one
partition (spec.md §4.5; `RecoverySegmentBuilder` body not in the
repository snapshot, behaviour pinned by tests `getRecoveryData` and
`recoverySegmentBuilder`): the OBJ/OBJTOMB entries of the replica, in
input order, whose key hash falls in a tablet of this partition and which
pass the liveness filter. -/
def buildRecoverySegment (segId pid : Nat) (parts : List Tablet)
    (entries : List (Nat × LogEntry)) : List (Nat × LogEntry) :=
  entries.filter (fun pe => keepEntry segId pid parts pe.1 pe.2)

/-- The S4 partition map (`createTabletList`): partition 0 covers the
hashes of (123,"9"), (123,"10"), (123,"29") and (124,"20"); partition 1
covers the hash of (123,"30") and all of table 125. -/
def s4parts : List Tablet :=
  [⟨123, keyHash 123 [57], keyHash 123 [57], 0, 0, 0⟩,
   ⟨123, keyHash 123 [49, 48], keyHash 123 [49, 48], 0, 0, 0⟩,
   ⟨123, keyHash 123 [50, 57], keyHash 123 [50, 57], 0, 0, 0⟩,
   ⟨124, keyHash 124 [50, 48], keyHash 124 [50, 48], 0, 0, 0⟩,
   ⟨123, keyHash 123 [51, 48], keyHash 123 [51, 48], 1, 0, 0⟩,
   ⟨125, 0, 2 ^ 64 - 1, 1, 0, 0⟩]

/-- The S4 replica content (test `getRecoveryData`): a header, objects for
(123,"29"), (123,"30"), (124,"20"), (125,"20") and tombstones for the same
four keys, at increasing offsets. -/
def s4entries : List (Nat × LogEntry) :=
  [(0, .seghdr 99 88),
   (10, .obj 123 [50, 57] [1]),
   (20, .obj 123 [51, 48] [2]),
   (30, .obj 124 [50, 48] [3]),
   (40, .obj 125 [50, 48] [4]),
   (50, .objtomb 123 [50, 57]),
   (60, .objtomb 123 [51, 48]),
   (70, .objtomb 124 [50, 48]),
   (80, .objtomb 125 [50, 48])]

/-- C3: the recovery-segment builder partitions and filters correctly —
every entry placed in a partition's output has a tablet of that partition
containing its key hash and passing the liveness filter (ctime ≤ position
with the header-tie exception); under a well-formed (non-overlapping)
partition map, an OBJ/OBJTOMB entry dropped from every partition has no
tablet that both contains its hash and passes the filter; output entries
appear in input order; and on the S4 input, partition 0's output is
exactly OBJ(123,"29"), OBJ(124,"20"), OBJTOMB(123,"29"), OBJTOMB(124,"20")
in that order. -/
theorem recoveryBuilder_filter_correct (segId : Nat) (parts : List Tablet)
    (entries : List (Nat × LogEntry))
    (huniq : ∀ tb1 ∈ parts, ∀ tb2 ∈ parts, tb1.tableId = tb2.tableId →
      tb1.startKeyHash ≤ tb2.endKeyHash → tb2.startKeyHash ≤ tb1.endKeyHash →
      tb1 = tb2) :
    (∀ pid : Nat, ∀ pe ∈ buildRecoverySegment segId pid parts entries,
      pe ∈ entries ∧
      ∃ tb ∈ parts, tb.partitionId = pid ∧
        (∃ t h, entryTableHash pe.2 = some (t, h) ∧
          tabletMatches tb t h = true) ∧
        isEntryAlive (segId, pe.1) tb segId = true) ∧
    (∀ pe ∈ entries, ∀ t h, entryTableHash pe.2 = some (t, h) →
      (∀ pid : Nat, ¬ pe ∈ buildRecoverySegment segId pid parts entries) →
      ¬ ∃ tb ∈ parts, tabletMatches tb t h = true ∧
        isEntryAlive (segId, pe.1) tb segId = true) ∧
    (∀ pid : Nat,
      (buildRecoverySegment segId pid parts entries).Sublist entries) ∧
    buildRecoverySegment 88 0 s4parts s4entries =
      [(10, .obj 123 [50, 57] [1]), (30, .obj 124 [50, 48] [3]),
        (50, .objtomb 123 [50, 57]), (70, .objtomb 124 [50, 48])] := by
  refine ⟨?_, ?_, fun pid => List.filter_sublist _, by decide⟩
  · intro pid pe hpe
    obtain ⟨hmem, hkeep⟩ := List.mem_filter.mp hpe
    refine ⟨hmem, ?_⟩
    rw [keepEntry] at hkeep
    cases hth : entryTableHash pe.2 with
    | none =>
      rw [hth] at hkeep
      cases hkeep
    | some th =>
      rw [hth] at hkeep
      obtain ⟨t, h⟩ := th
      have hkeep2 : (match whichPartition t h parts with
          | none => false
          | some tb =>
            (tb.partitionId == pid) && isEntryAlive (segId, pe.1) tb segId) =
          true := hkeep
      cases hwp : whichPartition t h parts with
      | none =>
        rw [hwp] at hkeep2
        cases hkeep2
      | some tb =>
        rw [hwp] at hkeep2
        obtain ⟨h1, h2⟩ := (Bool.and_eq_true _ _).mp hkeep2
        refine ⟨tb, whichPartition_mem hwp, beq_iff_eq.mp h1,
          ⟨t, h, rfl, whichPartition_matches hwp⟩, h2⟩
  · rintro pe hpe t h hth hdrop ⟨tb, htb, hmatch, halive⟩
    have hfound : (whichPartition t h parts).isSome = true := by
      rw [whichPartition, List.find?_isSome]
      exact ⟨tb, htb, hmatch⟩
    obtain ⟨tb2, hwp⟩ := Option.isSome_iff_exists.mp hfound
    have htb2 : tb2 ∈ parts := whichPartition_mem hwp
    have hm2 : tabletMatches tb2 t h = true := whichPartition_matches hwp
    have hovl : tb2 = tb := by
      obtain ⟨hm2a, hm2c⟩ := (Bool.and_eq_true _ _).mp hm2
      obtain ⟨hm2t, hm2b⟩ := (Bool.and_eq_true _ _).mp hm2a
      obtain ⟨hma, hmc⟩ := (Bool.and_eq_true _ _).mp hmatch
      obtain ⟨hmt, hmb⟩ := (Bool.and_eq_true _ _).mp hma
      refine huniq tb2 htb2 tb htb ?_ ?_ ?_
      · rw [beq_iff_eq.mp hm2t, beq_iff_eq.mp hmt]
      · have hb1 := of_decide_eq_true hm2b
        have hb2 := of_decide_eq_true hmc
        omega
      · have hb1 := of_decide_eq_true hmb
        have hb2 := of_decide_eq_true hm2c
        omega
    subst hovl
    apply hdrop tb2.partitionId
    refine List.mem_filter.mpr ⟨hpe, ?_⟩
    have hred : keepEntry segId tb2.partitionId parts pe.1 pe.2 =
        ((tb2.partitionId == tb2.partitionId) &&
          isEntryAlive (segId, pe.1) tb2 segId) := by
      rw [keepEntry, hth]
      show (match whichPartition t h parts with
          | none => false
          | some tb => (tb.partitionId == tb2.partitionId) &&
              isEntryAlive (segId, pe.1) tb segId) = _
      rw [hwp]
    rw [hred]
    simp [halive]

/-- Witness for C3: applied to the S4 scenario (the tablet map is
non-overlapping), partition 0's output is exactly the four expected
entries in order. -/
theorem recoveryBuilder_filter_correct_witness :
    buildRecoverySegment 88 0 s4parts s4entries =
      [(10, .obj 123 [50, 57] [1]), (30, .obj 124 [50, 48] [3]),
        (50, .objtomb 123 [50, 57]), (70, .objtomb 124 [50, 48])] :=
  (recoveryBuilder_filter_correct 88 s4parts s4entries (by decide)).2.2.2

end RAMCloud

namespace RAMCloud

/-! ## C9 — GarbageCollectDownServer frees one replica per step -/

/-- Registry entries belonging to the condemned master. -/
def ofMaster (m : ServerId) (e : (ServerId × Nat) × Replica) : Bool :=
  e.1.1 == m

/-- Remove the first replica of the condemned master, if any. -/
def removeFirstOf (m : ServerId) : Registry → Registry
  | [] => []
  | e :: rest =>
    if ofMaster m e then rest else e :: removeFirstOf m rest

/-- Modelled from the spec: one `performTask` step of
`GarbageCollectDownServerTask` (spec.md §4.8; BackupService.cc is not in
the repository snapshot; behaviour pinned by test
`GarbageCollectDownServerTask`): free at most one replica belonging to the
condemned master and reschedule (`true`); once none remain the task
terminates (`false`). -/
def gcDownStep (m : ServerId) (reg : Registry) : Registry × Bool :=
  if reg.any (ofMaster m) then (removeFirstOf m reg, true)
  else (reg, false)

/-- Iterate the garbage-collection step `n` times. -/
def gcDownIter (m : ServerId) (reg : Registry) : Nat → Registry
  | 0 => reg
  | n + 1 => gcDownIter m (gcDownStep m reg).1 n

theorem removeFirstOf_countP {m : ServerId} :
    ∀ {reg : Registry}, reg.any (ofMaster m) = true →
    (removeFirstOf m reg).countP (ofMaster m) =
        reg.countP (ofMaster m) - 1 ∧
    (removeFirstOf m reg).length + 1 = reg.length := by
  intro reg
  induction reg with
  | nil =>
    intro h
    cases h
  | cons e rest ih =>
    intro h
    by_cases he : ofMaster m e
    · rw [removeFirstOf, if_pos he]
      constructor
      · rw [List.countP_cons_of_pos _ _ he]
        omega
      · simp
    · have hrest : rest.any (ofMaster m) = true := by
        rcases List.any_eq_true.mp h with ⟨x, hx, hpx⟩
        rcases List.mem_cons.mp hx with rfl | hx
        · exact absurd hpx he
        · exact List.any_eq_true.mpr ⟨x, hx, hpx⟩
      obtain ⟨ih1, ih2⟩ := ih hrest
      rw [removeFirstOf, if_neg he]
      have hcnt : 0 < rest.countP (ofMaster m) := by
        rcases List.any_eq_true.mp hrest with ⟨x, hx, hpx⟩
        exact List.countP_pos_iff.mpr ⟨x, hx, hpx⟩
      constructor
      · rw [List.countP_cons_of_neg _ _ he, List.countP_cons_of_neg _ _ he,
          ih1]
      · simp only [List.length_cons]
        omega

theorem removeFirstOf_other {m : ServerId} :
    ∀ (reg : Registry),
    (removeFirstOf m reg).filter (fun e => !ofMaster m e) =
      reg.filter (fun e => !ofMaster m e) := by
  intro reg
  induction reg with
  | nil => rfl
  | cons e rest ih =>
    by_cases he : ofMaster m e
    · rw [removeFirstOf, if_pos he, List.filter_cons_of_neg (by simp [he])]
    · rw [removeFirstOf, if_neg he, List.filter_cons_of_pos (by simp [he]),
        List.filter_cons_of_pos (by simp [he]), ih]

theorem gcDownIter_drains {m : ServerId} :
    ∀ (n : Nat) (reg : Registry), reg.countP (ofMaster m) = n →
    (gcDownIter m reg n).countP (ofMaster m) = 0 := by
  intro n
  induction n with
  | zero =>
    intro reg h
    exact h
  | succ k ih =>
    intro reg h
    have hany : reg.any (ofMaster m) = true := by
      have : 0 < reg.countP (ofMaster m) := by omega
      rcases List.countP_pos_iff.mp this with ⟨x, hx, hpx⟩
      exact List.any_eq_true.mpr ⟨x, hx, hpx⟩
    show (gcDownIter m (gcDownStep m reg).1 k).countP (ofMaster m) = 0
    have hstep : (gcDownStep m reg).1 = removeFirstOf m reg := by
      rw [gcDownStep, if_pos hany]
    rw [hstep]
    refine ih _ ?_
    obtain ⟨h1, -⟩ := removeFirstOf_countP hany
    omega

/-- C9: each step of `GarbageCollectDownServer(masterId)` frees at most
one replica belonging to the condemned master (exactly one while any
remain) and never frees a replica of any other master (the sub-registry of
other masters is unchanged); the task terminates, reporting done, once no
replicas of that master remain — in particular after `count` steps from
any registry holding `count` such replicas. -/
theorem gcDownServer_step_properties (m : ServerId) (reg : Registry) :
    (reg.countP (ofMaster m) = 0 → gcDownStep m reg = (reg, false)) ∧
    (0 < reg.countP (ofMaster m) →
      (gcDownStep m reg).2 = true ∧
      (gcDownStep m reg).1.countP (ofMaster m) =
        reg.countP (ofMaster m) - 1 ∧
      (gcDownStep m reg).1.length + 1 = reg.length) ∧
    ((gcDownStep m reg).1.filter (fun e => !ofMaster m e) =
      reg.filter (fun e => !ofMaster m e)) ∧
    ((gcDownIter m reg (reg.countP (ofMaster m))).countP (ofMaster m) = 0 ∧
      (gcDownStep m (gcDownIter m reg (reg.countP (ofMaster m)))).2 =
        false) := by
  have hdrain := gcDownIter_drains (reg.countP (ofMaster m)) reg rfl
  refine ⟨?_, ?_, ?_, hdrain, ?_⟩
  · intro h
    have hany : reg.any (ofMaster m) = false := by
      cases hcase : reg.any (ofMaster m) with
      | false => rfl
      | true =>
        rcases List.any_eq_true.mp hcase with ⟨x, hx, hpx⟩
        have := List.countP_pos_iff.mpr ⟨x, hx, hpx⟩
        omega
    rw [gcDownStep, if_neg (by simp [hany])]
  · intro h
    have hany : reg.any (ofMaster m) = true := by
      rcases List.countP_pos_iff.mp h with ⟨x, hx, hpx⟩
      exact List.any_eq_true.mpr ⟨x, hx, hpx⟩
    have hstep : gcDownStep m reg = (removeFirstOf m reg, true) := by
      rw [gcDownStep, if_pos hany]
    obtain ⟨h1, h2⟩ := removeFirstOf_countP hany
    rw [hstep]
    exact ⟨rfl, h1, h2⟩
  · by_cases hany : reg.any (ofMaster m) = true
    · rw [gcDownStep, if_pos hany]
      exact removeFirstOf_other reg
    · rw [gcDownStep, if_neg hany]
  · have hany : (gcDownIter m reg (reg.countP (ofMaster m))).any
        (ofMaster m) = false := by
      cases hcase : (gcDownIter m reg (reg.countP (ofMaster m))).any
          (ofMaster m) with
      | false => rfl
      | true =>
        rcases List.any_eq_true.mp hcase with ⟨x, hx, hpx⟩
        have := List.countP_pos_iff.mpr ⟨x, hx, hpx⟩
        omega
    rw [gcDownStep, if_neg (by simp [hany])]

/-- A dummy open replica for the C9 witness registry. -/
def c9rep : Replica :=
  { primary := true, createdByCurrentProcess := true,
    rightmostWrittenOffset := 0, state := .opened, bytes := [] }

/-- The registry of the test `GarbageCollectDownServerTask`: replicas
`(99,0),88`, `(99,0),89` and `(99,1),88`. -/
def c9reg : Registry :=
  [(((99, 0), 88), c9rep), (((99, 0), 89), c9rep), (((99, 1), 88), c9rep)]

/-- Witness for C9 at the test registry: the first step frees exactly one
of master `(99,0)`'s two replicas, leaves master `(99,1)`'s replica
untouched, and after two steps the task reports done. -/
theorem gcDownServer_step_properties_witness :
    ((gcDownStep (99, 0) c9reg).2 = true ∧
      (gcDownStep (99, 0) c9reg).1.countP (ofMaster (99, 0)) = 1 ∧
      (gcDownStep (99, 0) c9reg).1.length + 1 = c9reg.length) ∧
    ((gcDownStep (99, 0) c9reg).1.filter (fun e => !ofMaster (99, 0) e) =
      c9reg.filter (fun e => !ofMaster (99, 0) e)) ∧
    (gcDownIter (99, 0) c9reg 2).countP (ofMaster (99, 0)) = 0 ∧
    (gcDownStep (99, 0) (gcDownIter (99, 0) c9reg 2)).2 = false := by
  have h := gcDownServer_step_properties (99, 0) c9reg
  have hcnt : c9reg.countP (ofMaster (99, 0)) = 2 := by decide
  refine ⟨?_, h.2.2.1, ?_, ?_⟩
  · have h2 := h.2.1 (by rw [hcnt]; omega)
    rw [hcnt] at h2
    exact h2
  · have h4 := h.2.2.2.1
    rw [hcnt] at h4
    exact h4
  · have h5 := h.2.2.2.2
    rw [hcnt] at h5
    exact h5

end RAMCloud
